import Mathlib

/-!
makeVideoUnique: the dynamic ffmpeg filter graph

A shallow embedding of the filter-list construction of `applyOverlaysOnVideo`
(`src/applyOverlaysOnVideo.ts`) and of its JavaScript variants (`src/makeVideoUnique.js`,
`src/else/applyOverlaysOnVideoGPU.js`, `src/makeVideoUnique2.js`, `src/t.js`), of the promise
it returns, of `generateDynamicOutputPath` (`src/generateDynamicOutputPath.ts`), of
`randomTimeOffset` and `randomizeVideoMetadata` (`src/randomizeVideoMetadata.ts`) and of the
video id of `downloadYoutubeVideo` (`src/downloadYoutubeVideo.js`, `src/main.ts`).

Modelling conventions.

* A JavaScript number is a `JSNum`: `NaN`, the two infinities, or a finite value.
  Finite values are rationals and the sign of zero is not represented. The operations
  `gt`, `le`, `sub`, `mul`, `div` are exact; `fmul` and `fadd` round the exact result to the
  nearest double, ties to even, with gradual underflow and overflow to an infinity
  (`roundDouble`). `randomTimeOffset` is written with the rounded operations, and its dates
  are time values clipped at 8.64e15 ms, `none` being an Invalid Date.
* A template literal keeps its interpolated numbers unrendered (`JSStr`): the
  conversion of a number to its decimal text belongs to the JavaScript runtime.
  Interpolated input indices are small naturals and are rendered with `toString`.
* `filters.push(x)` is `filters ++ [x]`; the mutable locals of the source are
  threaded through `let` bindings in source order.
* The collaborators of the callback are inputs of the model: the probe result, the event the
  engine emits, the constant `Math.PI` and the `path` module of Node.js.
-/

namespace MakeVideoUnique

/-! ## JavaScript numbers -/

/-- A JavaScript number: not-a-number, an infinity, or a finite (rational) value. -/
inductive JSNum where
  | nan
  | negInf
  | fin (q : ℚ)
  | posInf
  deriving DecidableEq

namespace JSNum

/-- The JavaScript relational operator `a > b`; any comparison with `NaN` is false. -/
def gt : JSNum → JSNum → Bool
  | nan, _ => false
  | _, nan => false
  | posInf, posInf => false
  | posInf, _ => true
  | negInf, _ => false
  | fin _, posInf => false
  | fin _, negInf => true
  | fin a, fin b => decide (b < a)

/-- The JavaScript relational operator `a <= b`; any comparison with `NaN` is false. -/
def le : JSNum → JSNum → Bool
  | nan, _ => false
  | _, nan => false
  | negInf, _ => true
  | _, posInf => true
  | posInf, _ => false
  | fin _, negInf => false
  | fin a, fin b => decide (a ≤ b)

/-- The JavaScript binary operator `a - b`. -/
def sub : JSNum → JSNum → JSNum
  | nan, _ => nan
  | _, nan => nan
  | posInf, posInf => nan
  | negInf, negInf => nan
  | posInf, _ => posInf
  | negInf, _ => negInf
  | fin _, posInf => negInf
  | fin _, negInf => posInf
  | fin a, fin b => fin (a - b)

/-- The sign of a rational as an infinity, or `NaN` for zero. -/
def signedInf (q : ℚ) : JSNum :=
  if 0 < q then posInf else if q < 0 then negInf else nan

/-- Flip the sign of an infinity. -/
def negate : JSNum → JSNum
  | nan => nan
  | negInf => posInf
  | posInf => negInf
  | fin q => fin (-q)

/-- The JavaScript binary operator `a * b`. -/
def mul : JSNum → JSNum → JSNum
  | nan, _ => nan
  | _, nan => nan
  | fin a, fin b => fin (a * b)
  | fin a, posInf => signedInf a
  | fin a, negInf => negate (signedInf a)
  | posInf, fin b => signedInf b
  | negInf, fin b => negate (signedInf b)
  | posInf, posInf => posInf
  | negInf, negInf => posInf
  | posInf, negInf => negInf
  | negInf, posInf => negInf

/-- The JavaScript binary operator `a / b`. -/
def div : JSNum → JSNum → JSNum
  | nan, _ => nan
  | _, nan => nan
  | fin a, fin b => if b = 0 then signedInf a else fin (a / b)
  | fin _, posInf => fin 0
  | fin _, negInf => fin 0
  | posInf, fin b => if b < 0 then negInf else posInf
  | negInf, fin b => if b < 0 then posInf else negInf
  | posInf, posInf => nan
  | negInf, negInf => nan
  | posInf, negInf => nan
  | negInf, posInf => nan

end JSNum

/-! ## Strings with interpolated numbers -/

/-- One piece of a template literal: literal text or an interpolated number. -/
inductive JSPart where
  | lit (s : String)
  | num (n : JSNum)
  deriving DecidableEq

/-- A string value built by a template literal or by `String(n)`. -/
abbrev JSStr := List JSPart

/-- The `options` field: a string, an object of named string values, or (in the JavaScript
variants, which pass `SPEED_FACTOR` itself) a number. -/
inductive FilterOptions where
  | str (s : JSStr)
  | obj (fields : List (String × JSStr))
  | num (n : JSNum)
  deriving DecidableEq

/-- The `inputs` field: `string | string[]`. -/
inductive FilterInputs where
  | one (label : String)
  | many (labels : List String)
  deriving DecidableEq

/-- The interface `FilterComplexOption` of `applyOverlaysOnVideo.ts`. -/
structure FilterComplexOption where
  filter : String
  options : Option FilterOptions
  inputs : Option FilterInputs
  outputs : Option String
  deriving DecidableEq

/-- The input labels of a filter, as a list. -/
def FilterComplexOption.inputLabels (f : FilterComplexOption) : List String :=
  match f.inputs with
  | none => []
  | some (.one l) => [l]
  | some (.many ls) => ls

/-- The value of a named field of an object-valued `options`. -/
def FilterComplexOption.optionField (f : FilterComplexOption) (key : String) : Option JSStr :=
  match f.options with
  | some (.obj fields) => (fields.find? (fun kv => kv.1 == key)).map (fun kv => kv.2)
  | _ => none

/-! ## Constants of `applyOverlaysOnVideo.ts` -/

def GIF_PATH : String := "overlay.gif"
def HAIR_PATH : String := "hair.png"
def HAIR_ANGLE_ROTATE : JSNum := .fin 45
def GIF_OVERLAY_DURATION : JSNum := .fin 3
def SPEED_FACTOR : JSNum := .fin (101 / 100)

/-- Lines 38-39: `videoDuration > GIF_OVERLAY_DURATION ? videoDuration - GIF_OVERLAY_DURATION : 0`. -/
def overlayStartTime (videoDuration : JSNum) : JSNum :=
  if videoDuration.gt GIF_OVERLAY_DURATION then videoDuration.sub GIF_OVERLAY_DURATION
  else .fin 0

/-- Line 42: `1 / SPEED_FACTOR`. -/
def videoSetptsFactor : JSNum := (JSNum.fin 1).div SPEED_FACTOR

/-- Line 43: `(HAIR_ANGLE_ROTATE * Math.PI) / 180`; `Math.PI` is a constant of the runtime. -/
def angleRadians (mathPI : JSNum) : JSNum := (HAIR_ANGLE_ROTATE.mul mathPI).div (.fin 180)

/-- `src/t.js` line 47: `duration > 4 ? duration - 4 : 0`. -/
def tOverlayStartTime (duration : JSNum) : JSNum :=
  if duration.gt (.fin 4) then duration.sub (.fin 4) else .fin 0

/-- `src/t.js` line 48: the template literal of `gifEnableExpr`. -/
def tGifEnableExpr (duration : JSNum) : JSStr :=
  [.lit "between(t,", .num (tOverlayStartTime duration), .lit ",", .num duration, .lit ")"]

/-! ## The filter list of `applyOverlaysOnVideo` -/

/-- One media input attached to the ffmpeg command, with its input options. -/
structure CommandInput where
  path : String
  inputOptions : List String
  deriving DecidableEq

/-- The locals of the ffprobe callback at the point where the command is run. -/
structure Build where
  filters : List FilterComplexOption
  inputCount : Nat
  gifInputIndex : Option Nat
  hairInputIndex : Option Nat
  command : List CommandInput
  baseVideo : String
  outputOptions : List String
  deriving DecidableEq

/-- Lines 49-54: speed up the main video. -/
def speedVideoFilter : FilterComplexOption :=
  { filter := "setpts"
    options := some (.str [.num videoSetptsFactor, .lit "*PTS"])
    inputs := some (.one "0:v")
    outputs := some "v1" }

/-- Lines 56-61: speed up the audio. -/
def speedAudioFilter : FilterComplexOption :=
  { filter := "atempo"
    options := some (.str [.num SPEED_FACTOR])
    inputs := some (.one "0:a")
    outputs := some "a" }

/-- Line 99: the template literal of `gifEnableExpr`. -/
def gifEnableExpr (videoDuration : JSNum) : JSStr :=
  [.lit "between(t,", .num (overlayStartTime videoDuration), .lit ",", .num videoDuration,
    .lit ")"]

/-- Lines 102-107: delay the GIF stream. -/
def gifDelayFilter (videoDuration : JSNum) (gifInputIndex : Nat) : FilterComplexOption :=
  { filter := "setpts"
    options := some (.str [.lit "PTS+", .num (overlayStartTime videoDuration), .lit "/TB"])
    inputs := some (.one (toString gifInputIndex ++ ":v"))
    outputs := some "delayedGif" }

/-- Lines 109-119: overlay the delayed GIF on the sped-up video. -/
def gifOverlayFilter (videoDuration : JSNum) : FilterComplexOption :=
  { filter := "overlay"
    options := some (.obj
      [("x", [.lit "(main_w-overlay_w)/2"]),
       ("y", [.lit "(main_h-overlay_h)/2"]),
       ("format", [.lit "auto"]),
       ("enable", gifEnableExpr videoDuration)])
    inputs := some (.many ["v1", "delayedGif"])
    outputs := some "v2" }

/-- Lines 126-131: scale the PNG. -/
def hairScaleFilter (hairInputIndex : Nat) : FilterComplexOption :=
  { filter := "scale"
    options := some (.str [.lit "360:360"])
    inputs := some (.one (toString hairInputIndex ++ ":v"))
    outputs := some "scaledOverlay" }

/-- Lines 132-137: rotate the scaled PNG. -/
def hairRotateFilter (mathPI : JSNum) : FilterComplexOption :=
  { filter := "rotate"
    options := some (.str [.num (angleRadians mathPI), .lit ":fillcolor=none"])
    inputs := some (.one "scaledOverlay")
    outputs := some "rotatedOverlay" }

/-- Lines 138-146: overlay the rotated PNG on the base video. -/
def hairOverlayFilter (baseVideo : String) : FilterComplexOption :=
  { filter := "overlay"
    options := some (.obj
      [("x", [.lit "(main_w-overlay_w)/2"]),
       ("y", [.lit "(main_h-overlay_h)/2"])])
    inputs := some (.many [baseVideo, "rotatedOverlay"])
    outputs := some "v" }

/-- Lines 149-153: pass the base video through. -/
def passthroughFilter (baseVideo : String) : FilterComplexOption :=
  { filter := "null"
    options := none
    inputs := some (.one baseVideo)
    outputs := some "v" }

/-- Lines 37-160 of `applyOverlaysOnVideo`: the body of the ffprobe callback from the parsed
duration up to the point where the command is run. -/
def applyOverlaysOnVideo (mathPI : JSNum) (inputFilePath : String)
    (hasHair hasSubscribeOverlay : Bool) (videoDuration : JSNum) : Build :=
  -- 1., 2. speed up video and audio
  let filters : List FilterComplexOption := []
  let filters := filters ++ [speedVideoFilter]
  let filters := filters ++ [speedAudioFilter]
  -- decide which additional inputs we have
  let inputCount : Nat := 1
  let gifInputIndex : Option Nat := none
  let hairInputIndex : Option Nat := none
  let (gifInputIndex, inputCount) :=
    if hasSubscribeOverlay then (some inputCount, inputCount + 1) else (gifInputIndex, inputCount)
  let (hairInputIndex, inputCount) :=
    if hasHair then (some inputCount, inputCount + 1) else (hairInputIndex, inputCount)
  -- start building the command with the main video
  let command : List CommandInput := [{ path := inputFilePath, inputOptions := [] }]
  let command :=
    if hasSubscribeOverlay then
      command ++ [{ path := GIF_PATH, inputOptions := ["-ignore_loop", "0"] }]
    else command
  let command :=
    if hasHair then command ++ [{ path := HAIR_PATH, inputOptions := [] }] else command
  let baseVideo : String := "v1"
  -- 3. the GIF overlay
  let (filters, baseVideo) :=
    match hasSubscribeOverlay, gifInputIndex with
    | true, some gifInputIndex =>
      (filters ++ [gifDelayFilter videoDuration gifInputIndex]
         ++ [gifOverlayFilter videoDuration], "v2")
    | _, _ => (filters, baseVideo)
  -- 4. the PNG (hair) overlay, or the passthrough
  let filters :=
    match hasHair, hairInputIndex with
    | true, some hairInputIndex =>
      filters ++ [hairScaleFilter hairInputIndex] ++ [hairRotateFilter mathPI]
        ++ [hairOverlayFilter baseVideo]
    | _, _ => filters ++ [passthroughFilter baseVideo]
  { filters := filters
    inputCount := inputCount
    gifInputIndex := gifInputIndex
    hairInputIndex := hairInputIndex
    command := command
    baseVideo := baseVideo
    outputOptions := ["-map", "[v]", "-map", "[a]", "-shortest"] }

/-! ## Properties of a filter list -/

/-- A raw input reference `<index>:v` or `<index>:a`. -/
def IsRawInputRef (l : String) : Prop :=
  ∃ n : Nat, l = toString n ++ ":v" ∨ l = toString n ++ ":a"

/-- Every input label of every filter is a raw input reference or the output label of a
filter at a strictly smaller position. -/
def TopoValid (fs : List FilterComplexOption) : Prop :=
  ∀ (i : Nat) (f : FilterComplexOption), fs[i]? = some f → ∀ l ∈ f.inputLabels,
    IsRawInputRef l ∨
      ∃ (j : Nat) (g : FilterComplexOption), j < i ∧ fs[j]? = some g ∧ g.outputs = some l

/-- Executable test for a raw input reference with index below `bound`. -/
def rawRefB (bound : Nat) (l : String) : Bool :=
  (List.range bound).any (fun n => l == toString n ++ ":v" || l == toString n ++ ":a")

/-- Executable test of topological validity, given the labels produced so far. -/
def topoValidB (bound : Nat) : List String → List FilterComplexOption → Bool
  | _, [] => true
  | produced, f :: fs =>
    f.inputLabels.all (fun l => rawRefB bound l || produced.contains l)
      && topoValidB bound (produced ++ f.outputs.toList) fs

/-- The GIF stage sits at positions `i` and `i + 1` of a filter list: a setpts filter that
reads `<gifInputIndex>:v` and produces `delayedGif`, immediately followed by an overlay filter
with inputs `[v1, delayedGif]`, output `v2` and a centered position. -/
def GifStageAt (fs : List FilterComplexOption) (i gifInputIndex : Nat) : Prop :=
  ∃ (fd fo : FilterComplexOption), fs[i]? = some fd ∧ fs[i + 1]? = some fo ∧
    fd.filter = "setpts" ∧ fd.inputs = some (.one (toString gifInputIndex ++ ":v")) ∧
    fd.outputs = some "delayedGif" ∧
    fo.filter = "overlay" ∧ fo.inputs = some (.many ["v1", "delayedGif"]) ∧
    fo.outputs = some "v2" ∧
    fo.optionField "x" = some [.lit "(main_w-overlay_w)/2"] ∧
    fo.optionField "y" = some [.lit "(main_h-overlay_h)/2"]

/-- A label occurs in a filter, as its output or as one of its inputs. -/
def FilterComplexOption.mentions (f : FilterComplexOption) (l : String) : Prop :=
  f.outputs = some l ∨ l ∈ f.inputLabels

instance (f : FilterComplexOption) (l : String) : Decidable (f.mentions l) :=
  inferInstanceAs (Decidable (f.outputs = some l ∨ l ∈ f.inputLabels))

/-! ## Output paths (`generateDynamicOutputPath.ts`) -/

/-- The three functions of the Node.js `path` module used by the repository. -/
structure PathModule where
  dirname : String → String
  basename : String → String
  join : String → String → String

/-- The expression `s.split('.')[0]`: the text of `s` before its first `.`, all of `s` when
it has none. -/
def splitDotHead (s : String) : String :=
  String.mk (s.toList.takeWhile (fun c => c != '.'))

/-- The function `generateDynamicOutputPath` of `generateDynamicOutputPath.ts`, lines 3-8. -/
def generateDynamicOutputPath (path : PathModule) (inputFilePath addedString : String) :
    String :=
  let dirname := path.dirname inputFilePath
  let basename := splitDotHead (path.basename inputFilePath) ++ addedString ++ ".mp4"
  let outputFilePath := path.join dirname basename
  outputFilePath

/-- POSIX `path.basename` on a path without a trailing separator: the text after the
last `/`. -/
def posixBasename (p : String) : String :=
  String.mk ((p.toList.reverse.takeWhile (fun c => c != '/')).reverse)

/-- POSIX `path.dirname` on a path without a trailing separator: the text before the last
`/`, `.` when there is none, `/` when the only separator is the leading one. -/
def posixDirname (p : String) : String :=
  match p.toList.reverse.dropWhile (fun c => c != '/') with
  | [] => "."
  | _ :: d => if d.isEmpty then "/" else String.mk d.reverse

/-- POSIX `path.join` of a directory produced by `posixDirname` (already normalized) and a
file name. -/
def posixJoin (dir file : String) : String :=
  if dir = "." then file else if dir = "/" then "/" ++ file else dir ++ "/" ++ file

/-- The POSIX flavour of the `path` module, on paths without a trailing separator and
without `.` or `..` segments. -/
def posixPath : PathModule :=
  { dirname := posixDirname, basename := posixBasename, join := posixJoin }

/-- The file name without its extension, as `path.parse(name).name` gives it: the text
before the last `.`, the whole name when it has no `.` or its only `.` is the first
character. -/
def nameWithoutExtension (name : String) : String :=
  match name.toList.reverse.dropWhile (fun c => c != '.') with
  | [] => name
  | _ :: stem => if stem.isEmpty then name else String.mk stem.reverse

/-- The output path as the documentation describes it: the directory of the input joined with
the file name without its extension, the added string and `.mp4`. -/
def documentedOutputPath (path : PathModule) (inputFilePath addedString : String) : String :=
  path.join (path.dirname inputFilePath)
    (nameWithoutExtension (path.basename inputFilePath) ++ addedString ++ ".mp4")

/-! ## The promise returned by `applyOverlaysOnVideo` -/

/-- A JavaScript `Error` value. -/
structure JSError where
  message : String
  deriving DecidableEq

/-- What `ffmpeg.ffprobe` passes to its callback: an error, or metadata, of which the callback
reads only `parseFloat(metadata.format.duration)`. -/
inductive ProbeResult where
  | error (err : JSError)
  | metadata (parsedDuration : JSNum)
  deriving DecidableEq

/-- The event the engine emits once the command has been started with `.save`. -/
inductive EngineEvent where
  | ended
  | failed (err : JSError)
  deriving DecidableEq

/-- The state of the returned promise once it is settled. -/
inductive Settlement where
  | resolved (value : String)
  | rejected (err : JSError)
  deriving DecidableEq

/-- The observable effects of one call. -/
structure Run where
  settlement : Settlement
  build : Option Build
  saved : Option String
  unlinked : List String
  deriving DecidableEq

/-- The function `applyOverlaysOnVideo`, lines 22-180, with the probe result and the engine
event as inputs: `build` is the filter list and command built by the callback, `saved` the
path given to `.save`, `unlinked` the files removed with `fs.unlinkSync`. -/
def applyOverlaysOnVideoRun (path : PathModule) (mathPI : JSNum) (inputFilePath : String)
    (hasHair hasSubscribeOverlay : Bool) (probe : ProbeResult) (engine : EngineEvent) : Run :=
  let outputFilePath := generateDynamicOutputPath path inputFilePath "_final"
  match probe with
  | .error err =>
    -- line 35: `return reject(err)`
    { settlement := .rejected err, build := none, saved := none, unlinked := [] }
  | .metadata videoDuration =>
    let built := applyOverlaysOnVideo mathPI inputFilePath hasHair hasSubscribeOverlay
      videoDuration
    match engine with
    | .ended =>
      -- lines 168-172: unlink the input, resolve with the output path
      { settlement := .resolved outputFilePath, build := some built,
        saved := some outputFilePath, unlinked := [inputFilePath] }
    | .failed err =>
      -- lines 173-176: reject with the engine error
      { settlement := .rejected err, build := some built,
        saved := some outputFilePath, unlinked := [] }

/-! ## The JavaScript variants of the routine -/

/-- An interpolated `number | null` index: `null` prints as `null`. -/
def jsIndex : Option Nat → String
  | none => "null"
  | some n => toString n

/-- The filter list built by `makeVideoUnique` of `makeVideoUnique.js`, lines 37-158. The
constants of lines 13-17 have the same names and values as those of
`applyOverlaysOnVideo.ts`. -/
def makeVideoUnique (mathPI : JSNum) (hasHair hasSubscribeOverlay : Bool)
    (videoDuration : JSNum) : List FilterComplexOption :=
  let videoSetptsFactor := (JSNum.fin 1).div SPEED_FACTOR
  let angleRadians := (HAIR_ANGLE_ROTATE.mul mathPI).div (.fin 180)
  let overlayStartTime :=
    if videoDuration.gt GIF_OVERLAY_DURATION then videoDuration.sub GIF_OVERLAY_DURATION
    else .fin 0
  let filters : List FilterComplexOption := []
  let filters := filters ++
    [{ filter := "setpts", options := some (.str [.num videoSetptsFactor, .lit "*PTS"]),
       inputs := some (.one "0:v"), outputs := some "v1" }]
  let filters := filters ++
    [{ filter := "atempo", options := some (.num SPEED_FACTOR),
       inputs := some (.one "0:a"), outputs := some "a" }]
  let inputCount : Nat := 1
  let gifInputIndex : Option Nat := none
  let hairInputIndex : Option Nat := none
  let (gifInputIndex, inputCount) :=
    if hasSubscribeOverlay then (some inputCount, inputCount + 1) else (gifInputIndex, inputCount)
  let (hairInputIndex, _) :=
    if hasHair then (some inputCount, inputCount + 1) else (hairInputIndex, inputCount)
  let baseVideo : String := "v1"
  let (filters, baseVideo) :=
    if hasSubscribeOverlay then
      let gifEnableExpr : JSStr :=
        [.lit "between(t,", .num overlayStartTime, .lit ",", .num videoDuration, .lit ")"]
      (filters ++
        [{ filter := "setpts"
           options := some (.str [.lit "PTS+", .num overlayStartTime, .lit "/TB"])
           inputs := some (.one (jsIndex gifInputIndex ++ ":v"))
           outputs := some "delayedGif" }] ++
        [{ filter := "overlay"
           options := some (.obj
             [("x", [.lit "(main_w-overlay_w)/2"]), ("y", [.lit "(main_h-overlay_h)/2"]),
              ("format", [.lit "auto"]), ("enable", gifEnableExpr)])
           inputs := some (.many ["v1", "delayedGif"])
           outputs := some "v2" }], "v2")
    else (filters, baseVideo)
  if hasHair then
    filters ++
      [{ filter := "scale", options := some (.str [.lit "360:360"]),
         inputs := some (.one (jsIndex hairInputIndex ++ ":v")),
         outputs := some "scaledOverlay" }] ++
      [{ filter := "rotate"
         options := some (.str [.num angleRadians, .lit ":fillcolor=none"])
         inputs := some (.one "scaledOverlay"), outputs := some "rotatedOverlay" }] ++
      [{ filter := "overlay"
         options := some (.obj
           [("x", [.lit "(main_w-overlay_w)/2"]), ("y", [.lit "(main_h-overlay_h)/2"])])
         inputs := some (.many [baseVideo, "rotatedOverlay"])
         outputs := some "v" }]
  else
    filters ++
      [{ filter := "null", options := none, inputs := some (.one baseVideo),
         outputs := some "v" }]

/-- The filter list built by `makeVideoUnique` of `else/applyOverlaysOnVideoGPU.js`, lines
39-146; `var baseVideo` is assigned in both branches of the GIF test. -/
def makeVideoUniqueGPU (mathPI : JSNum) (hasHair hasSubscribeOverlay : Bool)
    (videoDuration : JSNum) : List FilterComplexOption :=
  let videoSetptsFactor := (JSNum.fin 1).div SPEED_FACTOR
  let angleRadians := (HAIR_ANGLE_ROTATE.mul mathPI).div (.fin 180)
  let overlayStartTime :=
    if videoDuration.gt GIF_OVERLAY_DURATION then videoDuration.sub GIF_OVERLAY_DURATION
    else .fin 0
  let filters : List FilterComplexOption := []
  let filters := filters ++
    [{ filter := "setpts", options := some (.str [.num videoSetptsFactor, .lit "*PTS"]),
       inputs := some (.one "0:v"), outputs := some "v1" }]
  let filters := filters ++
    [{ filter := "atempo", options := some (.num SPEED_FACTOR),
       inputs := some (.one "0:a"), outputs := some "a" }]
  let inputCount : Nat := 1
  let gifInputIndex : Option Nat := none
  let hairInputIndex : Option Nat := none
  let (gifInputIndex, inputCount) :=
    if hasSubscribeOverlay then (some inputCount, inputCount + 1) else (gifInputIndex, inputCount)
  let (hairInputIndex, _) :=
    if hasHair then (some inputCount, inputCount + 1) else (hairInputIndex, inputCount)
  let (filters, baseVideo) :=
    if hasSubscribeOverlay then
      let gifEnableExpr : JSStr :=
        [.lit "between(t,", .num overlayStartTime, .lit ",", .num videoDuration, .lit ")"]
      (filters ++
        [{ filter := "setpts"
           options := some (.str [.lit "PTS+", .num overlayStartTime, .lit "/TB"])
           inputs := some (.one (jsIndex gifInputIndex ++ ":v"))
           outputs := some "delayedGif" }] ++
        [{ filter := "overlay"
           options := some (.obj
             [("x", [.lit "(main_w-overlay_w)/2"]), ("y", [.lit "(main_h-overlay_h)/2"]),
              ("format", [.lit "auto"]), ("enable", gifEnableExpr)])
           inputs := some (.many ["v1", "delayedGif"])
           outputs := some "v2" }], "v2")
    else (filters, "v1")
  if hasHair then
    filters ++
      [{ filter := "scale", options := some (.str [.lit "360:360"]),
         inputs := some (.one (jsIndex hairInputIndex ++ ":v")),
         outputs := some "scaledOverlay" }] ++
      [{ filter := "rotate"
         options := some (.str [.num angleRadians, .lit ":fillcolor=none"])
         inputs := some (.one "scaledOverlay"), outputs := some "rotatedOverlay" }] ++
      [{ filter := "overlay"
         options := some (.obj
           [("x", [.lit "(main_w-overlay_w)/2"]), ("y", [.lit "(main_h-overlay_h)/2"])])
         inputs := some (.many [baseVideo, "rotatedOverlay"])
         outputs := some "v" }]
  else
    filters ++
      [{ filter := "null", options := none, inputs := some (.one baseVideo),
         outputs := some "v" }]

/-- Modelled from the spec: the serialisation of the `options` of a filter by the engine
adapter (not part of the repository), following the clause form
`[<inputLabels>]<operation>=<parameters>[<outputLabel>]` of section 6; a number is written
as its string, an object as its `key=value` pairs. -/
def serialiseOptions : Option FilterOptions → JSStr
  | none => []
  | some (.str s) => .lit "=" :: s
  | some (.num n) => [.lit "=", .num n]
  | some (.obj fields) =>
    .lit "=" ::
      List.intercalate [.lit ":"] (fields.map (fun kv => [JSPart.lit kv.1, .lit "="] ++ kv.2))

/-- Modelled from the spec: one clause `[<inputLabels>]<operation>=<parameters>[<outputLabel>]`
of the filter graph handed to the engine (section 6). -/
def serialiseFilter (f : FilterComplexOption) : JSStr :=
  f.inputLabels.map (fun l => JSPart.lit ("[" ++ l ++ "]")) ++ [.lit f.filter]
    ++ serialiseOptions f.options
    ++ (f.outputs.toList.map (fun l => JSPart.lit ("[" ++ l ++ "]")))

/-! ## Rotation in `makeVideoUnique2.js` and the filter list of `t.js` -/

/-- The expression `(angleDegrees * Math.PI) / 180` of `makeVideoUnique2.js` lines 425 and 513
and of `t.js` line 36. -/
def degreesToRadians (mathPI angleDegrees : JSNum) : JSNum :=
  (angleDegrees.mul mathPI).div (.fin 180)

/-- The filter list of `overlayUpscaledImage`, `makeVideoUnique2.js` lines 372-400;
`upscaledSize` is `none` when the argument is omitted, and then takes the default
`'480:480'` of line 376. -/
def overlayUpscaledImage (upscaledSize : Option String) : List FilterComplexOption :=
  let upscaledSize := upscaledSize.getD "480:480"
  [{ filter := "scale", options := some (.str [.lit upscaledSize]),
     inputs := some (.one "1:v"), outputs := some "scaledOverlay" },
   { filter := "overlay"
     options := some (.obj
       [("x", [.lit "(main_w-overlay_w)/2"]), ("y", [.lit "(main_h-overlay_h)/2"])])
     inputs := some (.many ["0:v", "scaledOverlay"]), outputs := some "v" }]

/-- The filter list of `overlayRotatedAndScaledImage`, `makeVideoUnique2.js` lines 423-456. -/
def overlayRotatedAndScaledImage (mathPI angleDegrees : JSNum) : List FilterComplexOption :=
  let angleRadians := (angleDegrees.mul mathPI).div (.fin 180)
  [{ filter := "scale", options := some (.str [.lit "360:360"]),
     inputs := some (.one "1:v"), outputs := some "scaledOverlay" },
   { filter := "rotate", options := some (.str [.num angleRadians, .lit ":fillcolor=none"]),
     inputs := some (.one "scaledOverlay"), outputs := some "rotatedOverlay" },
   { filter := "overlay"
     options := some (.obj
       [("x", [.lit "(main_w-overlay_w)/2"]), ("y", [.lit "(main_h-overlay_h)/2"])])
     inputs := some (.many ["0:v", "rotatedOverlay"]), outputs := some "v" }]

/-- The filter list of `processVideoWithOverlays`, `makeVideoUnique2.js` lines 510-572. -/
def processVideoWithOverlays (mathPI angleDegrees : JSNum) : List FilterComplexOption :=
  let speedFactor : JSNum := .fin (101 / 100)
  let videoSetptsFactor := (JSNum.fin 1).div speedFactor
  let angleRadians := (angleDegrees.mul mathPI).div (.fin 180)
  [{ filter := "setpts", options := some (.str [.num videoSetptsFactor, .lit "*PTS"]),
     inputs := some (.one "0:v"), outputs := some "v1" },
   { filter := "atempo", options := some (.num speedFactor),
     inputs := some (.one "0:a"), outputs := some "a" },
   { filter := "overlay"
     options := some (.obj
       [("x", [.lit "(main_w-overlay_w)/2"]), ("y", [.lit "(main_h-overlay_h)/2"]),
        ("format", [.lit "auto"])])
     inputs := some (.many ["v1", "1:v"]), outputs := some "v2" },
   { filter := "scale", options := some (.str [.lit "360:360"]),
     inputs := some (.one "2:v"), outputs := some "scaledOverlay" },
   { filter := "rotate", options := some (.str [.num angleRadians, .lit ":fillcolor=none"]),
     inputs := some (.one "scaledOverlay"), outputs := some "rotatedOverlay" },
   { filter := "overlay"
     options := some (.obj
       [("x", [.lit "(main_w-overlay_w)/2"]), ("y", [.lit "(main_h-overlay_h)/2"])])
     inputs := some (.many ["v2", "rotatedOverlay"]), outputs := some "v" }]

/-- `src/t.js` lines 34-35: `speedFactor = 1.01` and `videoSetptsFactor = 1 / speedFactor`. -/
def tVideoSetptsFactor : JSNum := (JSNum.fin 1).div (.fin (101 / 100))

/-- The filter list of `processVideoWithDynamicGifOverlay`, `src/t.js` lines 34-111. -/
def processVideoWithDynamicGifOverlay (mathPI angleDegrees duration : JSNum) :
    List FilterComplexOption :=
  let speedFactor : JSNum := .fin (101 / 100)
  let angleRadians := (angleDegrees.mul mathPI).div (.fin 180)
  [{ filter := "setpts", options := some (.str [.num tVideoSetptsFactor, .lit "*PTS"]),
     inputs := some (.one "0:v"), outputs := some "v1" },
   { filter := "atempo", options := some (.num speedFactor),
     inputs := some (.one "0:a"), outputs := some "a" },
   { filter := "overlay"
     options := some (.obj
       [("x", [.lit "(main_w-overlay_w)/2"]), ("y", [.lit "(main_h-overlay_h)/2"]),
        ("format", [.lit "auto"]), ("enable", tGifEnableExpr duration)])
     inputs := some (.many ["v1", "1:v"]), outputs := some "v2" },
   { filter := "scale", options := some (.str [.lit "360:360"]),
     inputs := some (.one "2:v"), outputs := some "scaledOverlay" },
   { filter := "rotate", options := some (.str [.num angleRadians, .lit ":fillcolor=none"]),
     inputs := some (.one "scaledOverlay"), outputs := some "rotatedOverlay" },
   { filter := "overlay"
     options := some (.obj
       [("x", [.lit "(main_w-overlay_w)/2"]), ("y", [.lit "(main_h-overlay_h)/2"])])
     inputs := some (.many ["v2", "rotatedOverlay"]), outputs := some "v" }]

/-! ## The time window of the GIF composite -/

/-- The GIF composite of `applyOverlaysOnVideo` is active at timestamp `t` of the stream `v1`
it is applied to, for a source of duration `d`: `t` is a timestamp of `v1`, whose timestamps
are those of the source multiplied by `videoSetptsFactor` and so run from 0 to
`d * videoSetptsFactor`, and the enable expression `between(t, overlayStartTime, d)` of
line 99 holds. -/
def gifActiveAt (d t : ℚ) : Prop :=
  match overlayStartTime (.fin d), (JSNum.fin d).mul videoSetptsFactor with
  | .fin start, .fin streamEnd => (0 ≤ t ∧ t ≤ streamEnd) ∧ (start ≤ t ∧ t ≤ d)
  | _, _ => False

/-- The same for the GIF composite of `src/t.js` (window 4, enable expression of line 48). -/
def tGifActiveAt (d t : ℚ) : Prop :=
  match tOverlayStartTime (.fin d), (JSNum.fin d).mul tVideoSetptsFactor with
  | .fin start, .fin streamEnd => (0 ≤ t ∧ t ≤ streamEnd) ∧ (start ≤ t ∧ t ≤ d)
  | _, _ => False

/-! ## Invalid durations -/

/-- A probed duration that is missing (`NaN`), non-finite, zero or negative. -/
def IsInvalidDuration (d : JSNum) : Prop :=
  d = .nan ∨ d = .posInf ∨ d = .negInf ∨ ∃ q : ℚ, d = .fin q ∧ q ≤ 0

/-! ## Raw input references and label use -/

/-- The number written by a non-empty list of decimal digits, most significant first. -/
def parseDigits (cs : List Char) : Option Nat :=
  if cs.isEmpty then none
  else cs.foldl
    (fun acc c =>
      match acc with
      | none => none
      | some n => if c.isDigit then some (10 * n + (c.toNat - 48)) else none)
    (some 0)

/-- The input index a label refers to when it has the form `<index>:v` or `<index>:a`. -/
def rawIndex? (l : String) : Option Nat :=
  match l.toList.reverse with
  | k :: ':' :: ds => if k = 'v' ∨ k = 'a' then parseDigits ds.reverse else none
  | _ => none

/-- The number of times a label is used as an input in a filter list. -/
def timesConsumed (fs : List FilterComplexOption) (l : String) : Nat :=
  (fs.map (fun f => f.inputLabels.count l)).sum

/-! ## `randomizeVideoMetadata.ts` -/

/-- Round to the nearest integer, ties to the even one. -/
def roundHalfEven (t : ℚ) : ℤ :=
  if t - ⌊t⌋ < 1 / 2 then ⌊t⌋
  else if 1 / 2 < t - ⌊t⌋ then ⌊t⌋ + 1
  else if ⌊t⌋ % 2 = 0 then ⌊t⌋ else ⌊t⌋ + 1

/-- The exponent of the unit in the last place of the binary64 numbers around `x > 0`: 52
below the binary exponent of `x`, and -1074 in the subnormal range. -/
def doubleExponent (x : ℚ) : ℤ := max (Int.log 2 x - 52) (-1074)

/-- The binary64 number nearest to `x > 0` (ties to even), with unbounded exponent. -/
def roundPos (x : ℚ) : ℚ :=
  (roundHalfEven (x / (2 : ℚ) ^ doubleExponent x) : ℚ) * (2 : ℚ) ^ doubleExponent x

/-- The binary64 number nearest to `x` (ties to even), with unbounded exponent. -/
def roundQ (x : ℚ) : ℚ :=
  if 0 < x then roundPos x else if x < 0 then -roundPos (-x) else 0

/-- IEEE 754 rounding of an exact result to binary64: results of magnitude `2^1024` or more
overflow to an infinity. -/
def roundDouble (x : ℚ) : JSNum :=
  if (2 : ℚ) ^ (1024 : ℕ) ≤ roundQ x then .posInf
  else if roundQ x ≤ -(2 : ℚ) ^ (1024 : ℕ) then .negInf
  else .fin (roundQ x)

/-- A finite binary64 value: an integer of magnitude below `2^53` times a power of two with
exponent between -1074 and 971. -/
def IsDouble (x : ℚ) : Prop :=
  ∃ n q : ℤ, |n| < 2 ^ (53 : ℕ) ∧ -1074 ≤ q ∧ q ≤ 971 ∧ x = (n : ℚ) * (2 : ℚ) ^ q

/-- The JavaScript binary operator `a + b`, exact. -/
def JSNum.add : JSNum → JSNum → JSNum
  | .nan, _ => .nan
  | _, .nan => .nan
  | .posInf, .negInf => .nan
  | .negInf, .posInf => .nan
  | .posInf, _ => .posInf
  | .negInf, _ => .negInf
  | .fin _, .posInf => .posInf
  | .fin _, .negInf => .negInf
  | .fin a, .fin b => .fin (a + b)

/-- The JavaScript operator `a * b` on doubles: the exact product, rounded to binary64. -/
def JSNum.fmul (a b : JSNum) : JSNum :=
  match a.mul b with
  | .fin q => roundDouble q
  | v => v

/-- The JavaScript operator `a + b` on doubles: the exact sum, rounded to binary64. -/
def JSNum.fadd (a b : JSNum) : JSNum :=
  match a.add b with
  | .fin q => roundDouble q
  | v => v

/-- The function `Math.floor`. -/
def JSNum.floor : JSNum → JSNum
  | .fin q => .fin (⌊q⌋ : ℤ)
  | v => v

/-- The largest magnitude of the time value of a `Date`, in milliseconds. -/
def maxTimeValue : ℤ := 8640000000000000

/-- The method `Date.prototype.getTime`: the time value, `NaN` for an invalid date. A `Date`
is `some t` with `t` its time value in milliseconds, or `none` when it is invalid. -/
def getTime : Option ℤ → JSNum
  | some t => .fin t
  | none => .nan

/-- The constructor `new Date(value)`: the date is invalid when the value is not finite or
its magnitude exceeds `maxTimeValue`, otherwise the value is truncated to an integer. -/
def newDate : JSNum → Option ℤ
  | .fin q =>
    if |q| ≤ (maxTimeValue : ℚ) then some (if 0 ≤ q then ⌊q⌋ else ⌈q⌉) else none
  | _ => none

/-- The function `randomTimeOffset` of `randomizeVideoMetadata.ts` lines 19-24 (the same text
as `makeVideoUnique2.js` lines 30-35). `maxOffsetSeconds` is `none` when the argument is
omitted and then takes the default 60; `random` is the value drawn by `Math.random()`. -/
def randomTimeOffset (baseTime : Option ℤ) (maxOffsetSeconds : Option JSNum)
    (random : JSNum) : Option ℤ :=
  let maxOffsetSeconds := maxOffsetSeconds.getD (.fin 60)
  let offsetMs := ((random.fmul maxOffsetSeconds).fmul (.fin 1000)).floor
  newDate ((getTime baseTime).fadd offsetMs)

/-- The observable effects of one call of `randomizeVideoMetadata`. -/
structure MetadataRun where
  settlement : Settlement
  saved : Option String
  unlinked : List String
  deriving DecidableEq

/-- The function `randomizeVideoMetadata`, lines 67-90, with the engine event as input; the
random metadata options do not influence what is saved where or what is deleted. -/
def randomizeVideoMetadataRun (path : PathModule) (inputFilePath : String)
    (engine : EngineEvent) : MetadataRun :=
  let outputFilePath := generateDynamicOutputPath path inputFilePath "_cleared"
  match engine with
  | .ended =>
    { settlement := .resolved outputFilePath, saved := some outputFilePath,
      unlinked := [inputFilePath] }
  | .failed err =>
    { settlement := .rejected err, saved := some outputFilePath, unlinked := [] }

/-! ## `downloadYoutubeVideo.js` and `main.ts` -/

/-- The method `String.prototype.split` with a one-character separator, on character lists. -/
def jsSplit (sep : Char) : List Char → List (List Char)
  | [] => [[]]
  | c :: cs =>
    if c = sep then [] :: jsSplit sep cs
    else
      match jsSplit sep cs with
      | [] => [[c]]
      | seg :: rest => (c :: seg) :: rest

/-- Line 16 of `downloadYoutubeVideo.js`: `url.split('/').at(-1)`, as it is interpolated
into the template literal of line 17. -/
def videoId (url : String) : String :=
  match (jsSplit '/' url.toList).getLast? with
  | some seg => String.mk seg
  | none => "undefined"

/-- The file name of line 17 of `downloadYoutubeVideo.js`, the last segment of
`videos/<videoId>.mp4`. -/
def downloadFileName (url : String) : String := videoId url ++ ".mp4"

/-- Line 17: the path given to `path.resolve` after `__dirname`. -/
def downloadRelativePath (url : String) : String := "videos/" ++ videoId url ++ ".mp4"

/-- Line 6 of `main.ts`: `urls[0]`. -/
def mainUrl : String := "https://www.youtube.com/shorts/Y-2w8GnIqLc"

/-- Line 15 of `main.ts`: the file name joined to the videos directory. -/
def mainFileName : String := "Y-2w8GnIqLc.mp4"

/-! ## Auxiliary lemmas -/

theorem forall_mem_of_all {α : Type} {p : α → Prop} [DecidablePred p] {l : List α}
    (h : l.all (fun x => decide (p x)) = true) : ∀ x ∈ l, p x := by
  simpa using h


theorem rawRefB_sound {bound : Nat} {l : String} (h : rawRefB bound l = true) :
    IsRawInputRef l := by
  unfold rawRefB at h
  rw [List.any_eq_true] at h
  obtain ⟨n, -, hn⟩ := h
  rw [Bool.or_eq_true] at hn
  rcases hn with hn | hn
  · exact ⟨n, Or.inl (eq_of_beq hn)⟩
  · exact ⟨n, Or.inr (eq_of_beq hn)⟩

theorem topoValidB_sound_aux (bound : Nat) :
    ∀ (fs pre : List FilterComplexOption),
      topoValidB bound (pre.filterMap (fun g => g.outputs)) fs = true →
      ∀ (i : Nat) (f : FilterComplexOption), fs[i]? = some f → ∀ l ∈ f.inputLabels,
        IsRawInputRef l ∨
          ∃ (j : Nat) (g : FilterComplexOption),
            j < pre.length + i ∧ (pre ++ fs)[j]? = some g ∧ g.outputs = some l := by
  intro fs
  induction fs with
  | nil => intro pre _ i f hf; simp at hf
  | cons f0 fs ih =>
    intro pre h i f hf l hl
    simp only [topoValidB, Bool.and_eq_true] at h
    obtain ⟨hall, hrec⟩ := h
    cases i with
    | zero =>
      simp only [List.getElem?_cons_zero, Option.some.injEq] at hf
      subst hf
      have hl2 := (List.all_eq_true.mp hall) l hl
      rw [Bool.or_eq_true] at hl2
      rcases hl2 with hr | hc
      · exact Or.inl (rawRefB_sound hr)
      · right
        have hmem : l ∈ pre.filterMap (fun g => g.outputs) := by simpa using hc
        obtain ⟨g, hg, hgo⟩ := List.mem_filterMap.mp hmem
        obtain ⟨j, hj, hjg⟩ := List.getElem_of_mem hg
        refine ⟨j, g, by simpa using hj, ?_, hgo⟩
        rw [List.getElem?_append_left hj, List.getElem?_eq_getElem hj, hjg]
    | succ i =>
      simp only [List.getElem?_cons_succ] at hf
      have hrec2 : topoValidB bound ((pre ++ [f0]).filterMap (fun g => g.outputs)) fs = true := by
        have : (pre ++ [f0]).filterMap (fun g => g.outputs)
            = pre.filterMap (fun g => g.outputs) ++ f0.outputs.toList := by
          rw [List.filterMap_append]
          cases h0 : f0.outputs <;> simp [List.filterMap_cons, h0]
        rw [this]; exact hrec
      rcases ih (pre ++ [f0]) hrec2 i f hf l hl with hraw | ⟨j, g, hj, hjg, hgo⟩
      · exact Or.inl hraw
      · right
        refine ⟨j, g, ?_, ?_, hgo⟩
        · simp only [List.length_append, List.length_singleton] at hj; omega
        · simpa [List.append_assoc] using hjg

theorem topoValidB_sound (bound : Nat) {fs : List FilterComplexOption}
    (h : topoValidB bound [] fs = true) : TopoValid fs := by
  intro i f hf l hl
  have := topoValidB_sound_aux bound fs [] (by simpa using h) i f hf l hl
  simpa using this

/-- The four filter lists, by flag combination. -/
theorem filters_eq (mathPI : JSNum) (inputFilePath : String) (hasHair hasSubscribeOverlay : Bool)
    (videoDuration : JSNum) :
    (applyOverlaysOnVideo mathPI inputFilePath hasHair hasSubscribeOverlay videoDuration).filters
      = [speedVideoFilter, speedAudioFilter]
        ++ (if hasSubscribeOverlay then
              [gifDelayFilter videoDuration 1, gifOverlayFilter videoDuration] else [])
        ++ (if hasHair then
              [hairScaleFilter (if hasSubscribeOverlay then 2 else 1), hairRotateFilter mathPI,
                hairOverlayFilter (if hasSubscribeOverlay then "v2" else "v1")]
            else [passthroughFilter (if hasSubscribeOverlay then "v2" else "v1")]) := by
  cases hasHair <;> cases hasSubscribeOverlay <;> rfl

/-- A property of two positioned elements of a list, checked over all pairs. -/
theorem forall_pair_of_enum_all {α : Type} (p : Nat → α → Nat → α → Prop)
    [∀ i x j y, Decidable (p i x j y)] {l : List α}
    (h : l.enum.all (fun a => l.enum.all (fun b => decide (p a.1 a.2 b.1 b.2))) = true) :
    ∀ (i j : Nat) (x y : α), l[i]? = some x → l[j]? = some y → p i x j y := by
  intro i j x y hx hy
  have hx2 : (i, x) ∈ l.enum := List.mk_mem_enum_iff_getElem?.mpr hx
  have hy2 : (j, y) ∈ l.enum := List.mk_mem_enum_iff_getElem?.mpr hy
  have h1 := (List.all_eq_true.mp h) _ hx2
  have h2 := (List.all_eq_true.mp h1) _ hy2
  simpa using h2

/-- A property of a positioned element of a list, checked over all positions. -/
theorem forall_of_enum_all {α : Type} (p : Nat → α → Prop) [∀ i x, Decidable (p i x)]
    {l : List α} (h : l.enum.all (fun a => decide (p a.1 a.2)) = true) :
    ∀ (i : Nat) (x : α), l[i]? = some x → p i x := by
  intro i x hx
  have hx2 : (i, x) ∈ l.enum := List.mk_mem_enum_iff_getElem?.mpr hx
  have h1 := (List.all_eq_true.mp h) _ hx2
  simpa using h1

/-- A property of the value of an option, checked on its list of values. -/
theorem forall_of_option_all {α : Type} (p : α → Prop) [DecidablePred p] {o : Option α}
    (h : o.toList.all (fun x => decide (p x)) = true) : ∀ k, o = some k → p k := by
  intro k hk
  subst hk
  simpa using h

theorem mem_takeWhile_sat (q : Char → Bool) :
    ∀ (l : List Char) (x : Char), x ∈ l.takeWhile q → q x = true
  | [], x, h => by simp at h
  | c :: cs, x, h => by
    by_cases hc : q c = true
    · simp only [List.takeWhile_cons, hc, if_true, List.mem_cons] at h
      rcases h with rfl | h
      · exact hc
      · exact mem_takeWhile_sat q cs x h
    · simp [List.takeWhile_cons, hc] at h

theorem dropWhile_head_unsat (q : Char → Bool) :
    ∀ (l : List Char) (x : Char) (xs : List Char), l.dropWhile q = x :: xs → q x = false
  | [], x, xs, h => by simp at h
  | c :: cs, x, xs, h => by
    by_cases hc : q c = true
    · simp only [List.dropWhile_cons, hc, if_true] at h
      exact dropWhile_head_unsat q cs x xs h
    · simp only [List.dropWhile_cons, hc] at h
      simp only [Bool.false_eq_true, if_false, List.cons.injEq] at h
      rw [← h.1]
      simpa using hc

theorem takeWhile_append_stop (q : Char → Bool) :
    ∀ (a : List Char) (x : Char) (rest : List Char),
      (∀ y ∈ a, q y = true) → q x = false → (a ++ x :: rest).takeWhile q = a
  | [], x, rest, _, hx => by simp [List.takeWhile_cons, hx]
  | c :: cs, x, rest, ha, hx => by
    have hc : q c = true := ha c (List.mem_cons_self _ _)
    have ih := takeWhile_append_stop q cs x rest
      (fun y hy => ha y (List.mem_cons_of_mem _ hy)) hx
    simp [List.takeWhile_cons, hc, ih]

theorem takeWhile_self (q : Char → Bool) :
    ∀ (a : List Char), (∀ y ∈ a, q y = true) → a.takeWhile q = a
  | [], _ => rfl
  | c :: cs, ha => by
    have hc : q c = true := ha c (List.mem_cons_self _ _)
    have ih := takeWhile_self q cs (fun y hy => ha y (List.mem_cons_of_mem _ hy))
    simp [List.takeWhile_cons, hc, ih]

/-- The text before the first `.` is the first element of `split('.')`. -/
theorem jsSplit_head (sep : Char) :
    ∀ l : List Char, (jsSplit sep l).head? = some (l.takeWhile (fun c => c != sep))
  | [] => rfl
  | c :: cs => by
    have ih := jsSplit_head sep cs
    by_cases hc : c = sep
    · simp [jsSplit, hc]
    · simp only [jsSplit, hc, if_false]
      cases hsplit : jsSplit sep cs with
      | nil => rw [hsplit] at ih; simp at ih
      | cons seg rest =>
        rw [hsplit] at ih
        simp only [List.head?_cons, Option.some.injEq] at ih
        simp [List.takeWhile_cons, hc, ih]

/-- The output file name differs from the input file name. -/
theorem outputName_ne (name addedString : String) (hne : addedString ≠ "")
    (hdot : addedString.toList.head? ≠ some '.') :
    splitDotHead name ++ addedString ++ ".mp4" ≠ name := by
  intro h
  have hd := congrArg String.data h
  simp only [String.data_append, splitDotHead, String.toList] at hd
  have hsplit := List.takeWhile_append_dropWhile (fun c => c != '.') name.data
  rw [List.append_assoc] at hd
  rw [← hsplit] at hd
  simp only [List.takeWhile_append_dropWhile] at hd
  have hd2 := List.append_cancel_left
    (hd.trans hsplit.symm)
  cases ha : addedString.data with
  | nil => exact hne (String.ext ha)
  | cons c cs =>
    rw [ha] at hd2
    have hq := dropWhile_head_unsat (fun c => c != '.') name.data c
      (cs ++ ".mp4".data) (by rw [← hd2]; rfl)
    have hc : c = '.' := by simpa using hq
    apply hdot
    simp [String.toList, ha, hc]

/-- POSIX `basename` of a directory, a separator and a name without separator. -/
theorem posixBasename_append (d n : String) (hn : ∀ y ∈ n.data, (y != '/') = true) :
    posixBasename (d ++ "/" ++ n) = n := by
  have hrev : (d ++ "/" ++ n).toList.reverse = n.data.reverse ++ '/' :: d.data.reverse := by
    simp [String.toList, String.data_append]
  have htw := takeWhile_append_stop (fun c => c != '/') n.data.reverse '/' d.data.reverse
    (fun y hy => hn y (List.mem_reverse.mp hy)) (by decide)
  unfold posixBasename
  rw [hrev, htw, List.reverse_reverse]

theorem posixBasename_self (n : String) (hn : ∀ y ∈ n.data, (y != '/') = true) :
    posixBasename n = n := by
  have htw := takeWhile_self (fun c => c != '/') n.data.reverse
    (fun y hy => hn y (List.mem_reverse.mp hy))
  unfold posixBasename
  simp only [String.toList]
  rw [htw, List.reverse_reverse]

theorem posixBasename_no_slash (p : String) :
    ∀ y ∈ (posixBasename p).data, (y != '/') = true := by
  intro y hy
  unfold posixBasename at hy
  simp only [List.mem_reverse] at hy
  exact mem_takeWhile_sat (fun c => c != '/') _ y hy

theorem splitDotHead_subset (s : String) : ∀ y ∈ (splitDotHead s).data, y ∈ s.data := by
  intro y hy
  unfold splitDotHead at hy
  exact (List.takeWhile_sublist _).subset hy

/-- POSIX: the file name of the joined output path is the generated name. -/
theorem posixBasename_output (p addedString : String)
    (ha : ∀ y ∈ addedString.data, (y != '/') = true) :
    posixBasename (generateDynamicOutputPath posixPath p addedString)
      = splitDotHead (posixBasename p) ++ addedString ++ ".mp4" := by
  have hn : ∀ y ∈ (splitDotHead (posixBasename p) ++ addedString ++ ".mp4").data,
      (y != '/') = true := by
    intro y hy
    simp only [String.data_append, List.mem_append] at hy
    rcases hy with (hy | hy) | hy
    · exact posixBasename_no_slash p y (splitDotHead_subset _ y hy)
    · exact ha y hy
    · have : y ∈ ['.', 'm', 'p', '4'] := hy
      simp only [List.mem_cons, List.mem_singleton, List.not_mem_nil, or_false] at this
      rcases this with rfl | rfl | rfl | rfl <;> decide
  show posixBasename (posixJoin (posixDirname p)
    (splitDotHead (posixBasename p) ++ addedString ++ ".mp4")) = _
  unfold posixJoin
  split
  · exact posixBasename_self _ hn
  · split
    · have := posixBasename_append "" _ hn
      simpa using this
    · exact posixBasename_append _ _ hn

theorem jsSplit_length (sep : Char) :
    ∀ l : List Char, (jsSplit sep l).length = l.count sep + 1
  | [] => rfl
  | c :: cs => by
    have ih := jsSplit_length sep cs
    by_cases hc : c = sep
    · subst hc
      simp [jsSplit, ih]
    · have hne : (c == sep) = false := by simpa using hc
      simp only [jsSplit, hc, if_false]
      cases hsplit : jsSplit sep cs with
      | nil => rw [hsplit] at ih; simp at ih
      | cons seg rest =>
        rw [hsplit] at ih
        simp only [List.length_cons] at ih ⊢
        rw [List.count_cons, hne]
        simpa using ih

theorem jsSplit_no_sep (sep : Char) :
    ∀ (l : List Char), ∀ seg ∈ jsSplit sep l, sep ∉ seg
  | [], seg, h => by
    simp only [jsSplit, List.mem_singleton] at h
    subst h
    simp
  | c :: cs, seg, h => by
    have ih := jsSplit_no_sep sep cs
    by_cases hc : c = sep
    · simp only [jsSplit, hc, if_true, List.mem_cons] at h
      rcases h with rfl | h
      · simp
      · exact ih seg h
    · simp only [jsSplit, hc, if_false] at h
      cases hsplit : jsSplit sep cs with
      | nil =>
        rw [hsplit] at h
        simp only [List.mem_singleton] at h
        subst h
        simpa using fun h2 => hc h2.symm
      | cons seg0 rest =>
        rw [hsplit] at h ih
        simp only [List.mem_cons] at h
        rcases h with rfl | h
        · intro hmem
          simp only [List.mem_cons] at hmem
          rcases hmem with h2 | h2
          · exact hc h2.symm
          · exact ih seg0 (List.mem_cons_self _ _) h2
        · exact ih seg (List.mem_cons_of_mem _ h)

/-- The last element of `split(sep)` is the text after the last separator. -/
theorem jsSplit_last (sep : Char) :
    ∀ l : List Char, ∃ seg pre : List Char,
      (jsSplit sep l).getLast? = some seg ∧ l = pre ++ seg ∧
        (pre = [] ∨ pre.getLast? = some sep)
  | [] => ⟨[], [], rfl, rfl, Or.inl rfl⟩
  | c :: cs => by
    obtain ⟨seg, pre, hlast, hcs, hpre⟩ := jsSplit_last sep cs
    have hlen := jsSplit_length sep cs
    have hseg : sep ∉ seg := jsSplit_no_sep sep cs seg (List.mem_of_getLast?_eq_some hlast)
    cases hsplit : jsSplit sep cs with
    | nil => rw [hsplit] at hlen; simp at hlen
    | cons seg0 rest =>
      rw [hsplit] at hlast hlen
      by_cases hc : c = sep
      · refine ⟨seg, c :: pre, ?_, ?_, Or.inr ?_⟩
        · simp only [jsSplit, hc, if_true, hsplit, List.getLast?_cons_cons]
          exact hlast
        · rw [hcs]; rfl
        · rcases hpre with rfl | hp
          · simp [hc]
          · cases pre with
            | nil => simp at hp
            | cons x xs => rw [List.getLast?_cons_cons]; exact hp
      · cases rest with
        | nil =>
          have hseg0 : seg = seg0 := by simpa using hlast.symm
          have hcount : cs.count sep = 0 := by simpa using hlen.symm
          have hnot : sep ∉ cs := List.count_eq_zero.mp hcount
          have hpre2 : pre = [] := by
            rcases hpre with h | h
            · exact h
            · exfalso
              apply hnot
              rw [hcs]
              exact List.mem_append_left _ (List.mem_of_getLast?_eq_some h)
          refine ⟨c :: seg0, [], ?_, ?_, Or.inl rfl⟩
          · simp [jsSplit, hc, hsplit]
          · rw [hcs, hpre2, hseg0]; rfl
        | cons r rs =>
          have hpre2 : pre ≠ [] := by
            intro h
            rw [h, List.nil_append] at hcs
            have : cs.count sep = 0 := List.count_eq_zero.mpr (hcs ▸ hseg)
            rw [this] at hlen
            simp at hlen
          refine ⟨seg, c :: pre, ?_, ?_, Or.inr ?_⟩
          · simp only [jsSplit, hc, if_false, hsplit, List.getLast?_cons_cons]
            simpa [List.getLast?_cons_cons] using hlast
          · rw [hcs]; rfl
          · rcases hpre with h | h
            · exact absurd h hpre2
            · cases pre with
              | nil => exact absurd rfl hpre2
              | cons x xs => rw [List.getLast?_cons_cons]; exact h

/-! ### Doubles and the time offset of `randomTimeOffset` -/

theorem roundHalfEven_le (t : ℚ) : (roundHalfEven t : ℚ) ≤ t + 1 / 2 := by
  have h1 := Int.floor_le t
  unfold roundHalfEven
  split_ifs with ha hb hc
  · linarith
  · push_cast; linarith
  · linarith
  · push_cast; linarith

theorem le_roundHalfEven (t : ℚ) : t - 1 / 2 ≤ (roundHalfEven t : ℚ) := by
  have h1 := Int.floor_le t
  have h2 := Int.lt_floor_add_one t
  unfold roundHalfEven
  split_ifs with ha hb hc
  · linarith
  · push_cast; linarith
  · linarith
  · push_cast; linarith

theorem roundHalfEven_intCast (n : ℤ) : roundHalfEven (n : ℚ) = n := by
  unfold roundHalfEven
  simp

theorem roundHalfEven_nonneg {t : ℚ} (h : 0 ≤ t) : 0 ≤ roundHalfEven t := by
  have h1 : 0 ≤ ⌊t⌋ := Int.floor_nonneg.mpr h
  unfold roundHalfEven
  split_ifs <;> omega

theorem two_zpow_pos (q : ℤ) : (0 : ℚ) < (2 : ℚ) ^ q := zpow_pos (by norm_num) q

theorem zpow_log_le {x : ℚ} (hx : 0 < x) : (2 : ℚ) ^ Int.log 2 x ≤ x := by
  have h : ((2 : ℕ) : ℚ) ^ Int.log 2 x ≤ x := Int.zpow_log_le_self (by norm_num) hx
  simpa using h

theorem lt_zpow_log_succ (x : ℚ) : x < (2 : ℚ) ^ (Int.log 2 x + 1) := by
  have h : x < ((2 : ℕ) : ℚ) ^ (Int.log 2 x + 1) :=
    Int.lt_zpow_succ_log_self (by norm_num) x
  simpa using h

theorem log_lt_of_lt_zpow {x : ℚ} (hx : 0 < x) {a : ℤ} (h : x < (2 : ℚ) ^ a) :
    Int.log 2 x < a := by
  have h2 : x < ((2 : ℕ) : ℚ) ^ a := by simpa using h
  exact (Int.lt_zpow_iff_log_lt (by norm_num) hx).mp h2

theorem le_log_of_zpow_le {x : ℚ} (hx : 0 < x) {a : ℤ} (h : (2 : ℚ) ^ a ≤ x) :
    a ≤ Int.log 2 x := by
  have h2 : ((2 : ℕ) : ℚ) ^ a ≤ x := by simpa using h
  exact (Int.zpow_le_iff_le_log (by norm_num) hx).mp h2


/-- The unit in the last place is positive and at least `2^-1074`. -/
theorem doubleExponent_ge (x : ℚ) : -1074 ≤ doubleExponent x := le_max_right _ _

theorem doubleExponent_ge_log (x : ℚ) : Int.log 2 x - 52 ≤ doubleExponent x := le_max_left _ _

theorem doubleExponent_mono {x y : ℚ} (hx : 0 < x) (h : x ≤ y) :
    doubleExponent x ≤ doubleExponent y := by
  unfold doubleExponent
  have h2 : Int.log 2 x ≤ Int.log 2 y := Int.log_mono_right hx h
  omega

/-- The scaled value of `x > 0` is below `2^53`. -/
theorem scaled_lt (x : ℚ) :
    x / (2 : ℚ) ^ doubleExponent x < (2 : ℚ) ^ (53 : ℕ) := by
  have hq := two_zpow_pos (doubleExponent x)
  rw [div_lt_iff₀ hq]
  have h1 := lt_zpow_log_succ x
  have h2 : (2 : ℚ) ^ (Int.log 2 x + 1) ≤ (2 : ℚ) ^ (doubleExponent x + 53) := by
    apply zpow_le_zpow_right₀ (by norm_num)
    have := doubleExponent_ge_log x
    omega
  have h3 : (2 : ℚ) ^ (doubleExponent x + 53) = (2 : ℚ) ^ (53 : ℕ) * (2 : ℚ) ^ doubleExponent x := by
    rw [zpow_add₀ (by norm_num)]
    rw [mul_comm]
    norm_cast
  linarith

/-- For `x > 0` the rounded value is a non-negative integer, at most `2^53`, times the unit
in the last place, and within half a unit of `x`. -/
theorem roundPos_spec {x : ℚ} (hx : 0 < x) :
    ∃ n : ℤ, roundPos x = (n : ℚ) * (2 : ℚ) ^ doubleExponent x ∧ 0 ≤ n ∧
      n ≤ 2 ^ (53 : ℕ) ∧
      roundPos x ≤ x + (2 : ℚ) ^ doubleExponent x / 2 ∧
      x - (2 : ℚ) ^ doubleExponent x / 2 ≤ roundPos x := by
  have hq := two_zpow_pos (doubleExponent x)
  have hs : 0 ≤ x / (2 : ℚ) ^ doubleExponent x := by positivity
  refine ⟨roundHalfEven (x / (2 : ℚ) ^ doubleExponent x), rfl, roundHalfEven_nonneg hs, ?_, ?_, ?_⟩
  · have h1 := roundHalfEven_le (x / (2 : ℚ) ^ doubleExponent x)
    have h2 := scaled_lt x
    have h3 : (roundHalfEven (x / (2 : ℚ) ^ doubleExponent x) : ℚ) < (2 : ℚ) ^ (53 : ℕ) + 1 := by
      linarith
    have h4 : roundHalfEven (x / (2 : ℚ) ^ doubleExponent x) < 2 ^ (53 : ℕ) + 1 := by
      exact_mod_cast h3
    omega
  · have h1 := roundHalfEven_le (x / (2 : ℚ) ^ doubleExponent x)
    unfold roundPos
    have h2 : x / (2 : ℚ) ^ doubleExponent x * (2 : ℚ) ^ doubleExponent x = x :=
      div_mul_cancel₀ x (ne_of_gt hq)
    nlinarith
  · have h1 := le_roundHalfEven (x / (2 : ℚ) ^ doubleExponent x)
    unfold roundPos
    have h2 : x / (2 : ℚ) ^ doubleExponent x * (2 : ℚ) ^ doubleExponent x = x :=
      div_mul_cancel₀ x (ne_of_gt hq)
    nlinarith


/-- The unit in the last place of a positive double divides it. -/
theorem doubleExponent_le_of_isDouble {n q : ℤ} (hn : |n| < 2 ^ (53 : ℕ)) (hq : -1074 ≤ q)
    (hpos : 0 < (n : ℚ) * (2 : ℚ) ^ q) : doubleExponent ((n : ℚ) * (2 : ℚ) ^ q) ≤ q := by
  have hn2 : (n : ℚ) < (2 : ℚ) ^ (53 : ℕ) := by
    have : n < 2 ^ (53 : ℕ) := lt_of_le_of_lt (le_abs_self n) hn
    exact_mod_cast this
  have h1 : (n : ℚ) * (2 : ℚ) ^ q < (2 : ℚ) ^ (q + 53) := by
    rw [zpow_add₀ (by norm_num), mul_comm ((2 : ℚ) ^ q)]
    have := two_zpow_pos q
    have h53 : (2 : ℚ) ^ (53 : ℤ) = (2 : ℚ) ^ (53 : ℕ) := by norm_cast
    rw [h53]
    nlinarith
  have h2 := log_lt_of_lt_zpow hpos h1
  unfold doubleExponent
  omega

/-- A power of two with a non-negative exponent difference is an integer. -/
theorem zpow_sub_eq_intCast {a b : ℤ} (h : a ≤ b) :
    (2 : ℚ) ^ b = (((2 : ℤ) ^ (b - a).toNat : ℤ) : ℚ) * (2 : ℚ) ^ a := by
  have h1 : ((b - a).toNat : ℤ) = b - a := Int.toNat_of_nonneg (by omega)
  have h2 : (2 : ℚ) ^ b = (2 : ℚ) ^ (((b - a).toNat : ℤ) + a) := by rw [h1]; ring_nf
  rw [h2, zpow_add₀ (by norm_num), zpow_natCast]
  push_cast
  ring

theorem zpow_eq_int_mul {a b : ℤ} (h : a ≤ b) :
    ∃ K : ℤ, 0 < K ∧ (2 : ℚ) ^ b = (K : ℚ) * (2 : ℚ) ^ a :=
  ⟨(2 : ℤ) ^ (b - a).toNat, by positivity, zpow_sub_eq_intCast h⟩

theorem roundHalfEven_scaled {n q d : ℤ} (hd : d ≤ q) :
    (roundHalfEven ((n : ℚ) * (2 : ℚ) ^ q / (2 : ℚ) ^ d) : ℚ) * (2 : ℚ) ^ d
      = (n : ℚ) * (2 : ℚ) ^ q := by
  have hz := zpow_sub_eq_intCast hd
  have hqpos := two_zpow_pos d
  have hs : (n : ℚ) * (2 : ℚ) ^ q / (2 : ℚ) ^ d
      = ((n * (2 : ℤ) ^ (q - d).toNat : ℤ) : ℚ) := by
    rw [div_eq_iff (ne_of_gt hqpos), hz]
    push_cast
    ring
  rw [hs, roundHalfEven_intCast, hz]
  push_cast
  ring

/-- Rounding leaves a positive double unchanged. -/
theorem roundPos_of_isDouble {x : ℚ} (hx : IsDouble x) (hpos : 0 < x) : roundPos x = x := by
  obtain ⟨n, q, hn, hq1, -, rfl⟩ := hx
  exact roundHalfEven_scaled (doubleExponent_le_of_isDouble hn hq1 hpos)

theorem isDouble_neg {x : ℚ} (hx : IsDouble x) : IsDouble (-x) := by
  obtain ⟨n, q, hn, hq1, hq2, rfl⟩ := hx
  exact ⟨-n, q, by simpa using hn, hq1, hq2, by push_cast; ring⟩

/-- Rounding leaves a double unchanged. -/
theorem roundQ_of_isDouble {x : ℚ} (hx : IsDouble x) : roundQ x = x := by
  unfold roundQ
  split_ifs with h1 h2
  · exact roundPos_of_isDouble hx h1
  · rw [roundPos_of_isDouble (isDouble_neg hx) (by linarith)]
    ring
  · linarith

theorem isDouble_intCast {n : ℤ} (hn : |n| < 2 ^ (53 : ℕ)) : IsDouble (n : ℚ) :=
  ⟨n, 0, hn, by norm_num, by norm_num, by simp⟩

/-- A double below 1 is at most `1 - 2^-53`. -/
theorem isDouble_lt_one {r : ℚ} (hr : IsDouble r) (h1 : r < 1) :
    r ≤ 1 - 1 / (2 : ℚ) ^ (53 : ℕ) := by
  obtain ⟨n, q, hn, hq1, -, rfl⟩ := hr
  have hqpos := two_zpow_pos q
  by_cases hn0 : n ≤ 0
  · have : (n : ℚ) ≤ 0 := by exact_mod_cast hn0
    have : (n : ℚ) * (2 : ℚ) ^ q ≤ 0 := mul_nonpos_of_nonpos_of_nonneg this (le_of_lt hqpos)
    have : (0 : ℚ) ≤ 1 - 1 / (2 : ℚ) ^ (53 : ℕ) := by norm_num
    linarith
  · have hn1 : (1 : ℚ) ≤ (n : ℚ) := by
      have : 1 ≤ n := by omega
      exact_mod_cast this
    have hn53 : (n : ℚ) ≤ (2 : ℚ) ^ (53 : ℕ) - 1 := by
      have : n ≤ 2 ^ (53 : ℕ) - 1 := by
        have := lt_of_le_of_lt (le_abs_self n) hn
        omega
      exact_mod_cast this
    by_cases hq : q ≤ -53
    · have h2 : (2 : ℚ) ^ q ≤ (2 : ℚ) ^ (-53 : ℤ) := zpow_le_zpow_right₀ (by norm_num) hq
      have h3 : (2 : ℚ) ^ (-53 : ℤ) = 1 / (2 : ℚ) ^ (53 : ℕ) := by
        rw [zpow_neg, one_div]; norm_cast
      have h4 : (n : ℚ) * (2 : ℚ) ^ q ≤ ((2 : ℚ) ^ (53 : ℕ) - 1) * (1 / (2 : ℚ) ^ (53 : ℕ)) := by
        rw [← h3]
        apply mul_le_mul hn53 h2 (le_of_lt hqpos)
        norm_num
      have h5 : ((2 : ℚ) ^ (53 : ℕ) - 1) * (1 / (2 : ℚ) ^ (53 : ℕ))
          = 1 - 1 / (2 : ℚ) ^ (53 : ℕ) := by
        field_simp
      linarith
    · have hq53 : -53 ≤ q := by omega
      have hqneg : q < 0 := by
        by_contra hcon
        have : (1 : ℚ) ≤ (2 : ℚ) ^ q := one_le_zpow₀ (by norm_num) (by omega)
        nlinarith
      have hz := zpow_sub_eq_intCast (le_of_lt hqneg)
      simp only [zpow_zero] at hz
      -- `n * 2^q < 1 = 2^(-q) * 2^q`
      have h2 : (n : ℚ) < (((2 : ℤ) ^ (0 - q).toNat : ℤ) : ℚ) := by
        by_contra hcon
        push_neg at hcon
        have := mul_le_mul_of_nonneg_right hcon (le_of_lt hqpos)
        linarith
      have h3 : n < (2 : ℤ) ^ (0 - q).toNat := by exact_mod_cast h2
      have h4 : (n : ℚ) ≤ (((2 : ℤ) ^ (0 - q).toNat : ℤ) : ℚ) - 1 := by
        have : n ≤ (2 : ℤ) ^ (0 - q).toNat - 1 := by omega
        exact_mod_cast this
      have h5 : (n : ℚ) * (2 : ℚ) ^ q ≤ 1 - (2 : ℚ) ^ q := by
        have := mul_le_mul_of_nonneg_right h4 (le_of_lt hqpos)
        linarith
      have h6 : (2 : ℚ) ^ (-53 : ℤ) ≤ (2 : ℚ) ^ q := zpow_le_zpow_right₀ (by norm_num) hq53
      have h7 : (2 : ℚ) ^ (-53 : ℤ) = 1 / (2 : ℚ) ^ (53 : ℕ) := by
        rw [zpow_neg, one_div]; norm_cast
      rw [h7] at h6
      exact le_trans h5 (by linarith)


theorem roundQ_nonneg {x : ℚ} (hx : 0 ≤ x) : 0 ≤ roundQ x := by
  unfold roundQ
  split_ifs with h1 h2
  · obtain ⟨n, hn, hn0, -, -, -⟩ := roundPos_spec h1
    rw [hn]
    have : (0 : ℚ) ≤ (n : ℚ) := by exact_mod_cast hn0
    exact mul_nonneg this (le_of_lt (two_zpow_pos _))
  · linarith
  · exact le_refl 0

/-- Two multiples of a unit that differ are at least one unit apart. -/
theorem grid_step {n k qx qm : ℤ} (h : qx ≤ qm)
    (hlt : (n : ℚ) * (2 : ℚ) ^ qx < (k : ℚ) * (2 : ℚ) ^ qm) :
    (n : ℚ) * (2 : ℚ) ^ qx + (2 : ℚ) ^ qx ≤ (k : ℚ) * (2 : ℚ) ^ qm := by
  obtain ⟨K, -, hz⟩ := zpow_eq_int_mul h
  have hpos := two_zpow_pos qx
  rw [hz] at hlt ⊢
  have h1 : (n : ℚ) < ((k * K : ℤ) : ℚ) := by
    by_contra hcon
    push_neg at hcon
    have := mul_le_mul_of_nonneg_right hcon (le_of_lt hpos)
    push_cast at this
    linarith
  have h2 : n < k * K := by exact_mod_cast h1
  have h3 : (n : ℚ) + 1 ≤ ((k * K : ℤ) : ℚ) := by
    have : n + 1 ≤ k * K := by omega
    exact_mod_cast this
  have h4 := mul_le_mul_of_nonneg_right h3 (le_of_lt hpos)
  push_cast at h4
  linarith

/-- Rounding does not move a value across a power of two above it. -/
theorem roundPos_le_zpow {y : ℚ} (hy : 0 < y) {a : ℤ} (ha : -1074 ≤ a)
    (h : y ≤ (2 : ℚ) ^ a) : roundPos y ≤ (2 : ℚ) ^ a := by
  obtain ⟨n, hn, -, -, hup, -⟩ := roundPos_spec hy
  have hq : doubleExponent y ≤ a := by
    have h1 : y < (2 : ℚ) ^ (a + 1) :=
      lt_of_le_of_lt h (zpow_lt_zpow_right₀ (by norm_num) (by omega))
    have h2 := log_lt_of_lt_zpow hy h1
    unfold doubleExponent
    omega
  obtain ⟨K, -, hz⟩ := zpow_eq_int_mul hq
  have hpos := two_zpow_pos (doubleExponent y)
  by_contra hcon
  push_neg at hcon
  rw [hn, hz] at hcon
  rw [hn] at hup
  rw [hz] at h
  -- the power of two is a multiple of the unit, so the rounded value is a unit above it
  have h2 : (K : ℚ) < (n : ℚ) := by
    by_contra hc
    push_neg at hc
    have := mul_le_mul_of_nonneg_right hc (le_of_lt hpos)
    linarith
  have h3 : K < n := by exact_mod_cast h2
  have h4 : (K : ℚ) + 1 ≤ (n : ℚ) := by
    have : K + 1 ≤ n := by omega
    exact_mod_cast this
  have h5 := mul_le_mul_of_nonneg_right h4 (le_of_lt hpos)
  linarith


theorem roundQ_zero : roundQ 0 = 0 := by
  unfold roundQ
  simp

theorem roundQ_of_pos {x : ℚ} (hx : 0 < x) : roundQ x = roundPos x := by
  unfold roundQ
  simp [hx]

theorem doubleExponent_le_of_lt_zpow {y : ℚ} (hy : 0 < y) {a : ℤ} (ha : -1074 ≤ a)
    (h : y < (2 : ℚ) ^ (a + 53)) : doubleExponent y ≤ a := by
  have h2 := log_lt_of_lt_zpow hy h
  unfold doubleExponent
  omega

/-- The heart of the bound on `randomTimeOffset`: for doubles `0 <= r < 1` and `m > 0`, the
double product `(r * m) * 1000`, rounded after each multiplication, has a floor below the
exact `m * 1000`. -/
theorem floor_two_round_lt {m r : ℚ} (hm : IsDouble m) (hmpos : 0 < m) (hr : IsDouble r)
    (h0 : 0 ≤ r) (h1 : r < 1) :
    0 ≤ roundQ (roundQ (r * m) * 1000) ∧
      ((⌊roundQ (roundQ (r * m) * 1000)⌋ : ℤ) : ℚ) < m * 1000 := by
  have hnn2 : 0 ≤ roundQ (roundQ (r * m) * 1000) :=
    roundQ_nonneg (mul_nonneg (roundQ_nonneg (mul_nonneg h0 (le_of_lt hmpos))) (by norm_num))
  refine ⟨hnn2, ?_⟩
  have hm1000 : 0 < m * 1000 := by positivity
  -- the case where the first product rounds to zero
  have hzero : roundQ (r * m) = 0 →
      ((⌊roundQ (roundQ (r * m) * 1000)⌋ : ℤ) : ℚ) < m * 1000 := by
    intro h
    rw [h, zero_mul, roundQ_zero]
    simpa using hm1000
  rcases eq_or_lt_of_le h0 with hr0 | hrpos
  · apply hzero
    rw [← hr0, zero_mul, roundQ_zero]
  have hx : 0 < r * m := mul_pos hrpos hmpos
  have hxm : r * m < m := by nlinarith
  by_cases hX0 : roundQ (r * m) = 0
  · exact hzero hX0
  have hXpos : 0 < roundQ (r * m) :=
    lt_of_le_of_ne (roundQ_nonneg (le_of_lt hx)) (Ne.symm hX0)
  have hYpos : 0 < roundQ (r * m) * 1000 := by positivity
  rw [roundQ_of_pos hYpos]
  rw [roundQ_of_pos hx] at hXpos hYpos ⊢
  obtain ⟨n, hX, hn0, hn53, hup, -⟩ := roundPos_spec hx
  obtain ⟨-, -, -, -, hupY, -⟩ := roundPos_spec hYpos
  have hqx := two_zpow_pos (doubleExponent (r * m))
  by_cases htiny : m ≤ (2 : ℚ) ^ (-1022 : ℤ)
  · -- tiny bound: everything stays far below 1, the floor is 0
    have h2 : roundPos (r * m) ≤ (2 : ℚ) ^ (-1022 : ℤ) :=
      roundPos_le_zpow hx (by norm_num) (le_trans (le_of_lt hxm) htiny)
    have h3 : roundPos (r * m) * 1000 ≤ (2 : ℚ) ^ (-1012 : ℤ) := by
      have : (2 : ℚ) ^ (-1012 : ℤ) = (2 : ℚ) ^ (10 : ℤ) * (2 : ℚ) ^ (-1022 : ℤ) := by
        rw [← zpow_add₀ (by norm_num)]; norm_num
      rw [this]
      have h10 : (2 : ℚ) ^ (10 : ℤ) = 1024 := by norm_num
      rw [h10]
      have := two_zpow_pos (-1022)
      linarith
    have h4 := roundPos_le_zpow hYpos (by norm_num) h3
    have h5 : (2 : ℚ) ^ (-1012 : ℤ) < 1 := by
      have := zpow_lt_zpow_right₀ (by norm_num : (1 : ℚ) < 2) (by norm_num : (-1012 : ℤ) < 0)
      simpa using this
    have hfloor : ⌊roundPos (roundPos (r * m) * 1000)⌋ = 0 := by
      rw [Int.floor_eq_zero_iff]
      have hnnY := roundQ_nonneg (le_of_lt hYpos)
      rw [roundQ_of_pos hYpos] at hnnY
      exact ⟨hnnY, lt_of_le_of_lt h4 h5⟩
    rw [hfloor]
    simpa using hm1000
  · push_neg at htiny
    -- step 1: the first rounded product is below `m`
    have hr53 := isDouble_lt_one hr h1
    have hxle : r * m ≤ m - m / (2 : ℚ) ^ (53 : ℕ) := by
      have := mul_le_mul_of_nonneg_right hr53 (le_of_lt hmpos)
      have h2 : (1 - 1 / (2 : ℚ) ^ (53 : ℕ)) * m = m - m / (2 : ℚ) ^ (53 : ℕ) := by ring
      linarith
    have hunit : (2 : ℚ) ^ doubleExponent (r * m) * (2 : ℚ) ^ (52 : ℕ) < m := by
      have h52 : (2 : ℚ) ^ (52 : ℕ) = (2 : ℚ) ^ (52 : ℤ) := by norm_cast
      rw [h52, ← zpow_add₀ (by norm_num)]
      rcases le_total (Int.log 2 (r * m) - 52) (-1074) with hc | hc
      · have : doubleExponent (r * m) = -1074 := max_eq_right hc
        rw [this]
        have : (-1074 : ℤ) + 52 = -1022 := by norm_num
        rw [this]
        exact htiny
      · have : doubleExponent (r * m) = Int.log 2 (r * m) - 52 := max_eq_left hc
        rw [this]
        have : Int.log 2 (r * m) - 52 + 52 = Int.log 2 (r * m) := by ring
        rw [this]
        exact lt_of_le_of_lt (zpow_log_le hx) hxm
    have hXm : roundPos (r * m) < m := by
      have h2 : (2 : ℚ) ^ doubleExponent (r * m) / 2 < m / (2 : ℚ) ^ (53 : ℕ) := by
        rw [div_lt_div_iff₀ (by norm_num) (by positivity)]
        have : (2 : ℚ) ^ (53 : ℕ) = 2 * (2 : ℚ) ^ (52 : ℕ) := by norm_num
        rw [this]
        nlinarith
      linarith
    -- step 2: both are multiples of the unit of the first product
    obtain ⟨nm, qm, hnm, hqm1, -, hmeq⟩ := hm
    have hqle : doubleExponent (r * m) ≤ qm := by
      have h2 := doubleExponent_mono hx (le_of_lt hxm)
      have h3 : doubleExponent m ≤ qm := by
        rw [hmeq]
        exact doubleExponent_le_of_isDouble hnm hqm1 (by rw [← hmeq]; exact hmpos)
      omega
    have hgrid : roundPos (r * m) + (2 : ℚ) ^ doubleExponent (r * m) ≤ m := by
      have hlt : (n : ℚ) * (2 : ℚ) ^ doubleExponent (r * m) < (nm : ℚ) * (2 : ℚ) ^ qm := by
        rw [← hX, ← hmeq]; exact hXm
      have := grid_step hqle hlt
      rw [← hX, ← hmeq] at this
      exact this
    -- step 3: the unit of the second product is at most 1024 units of the first
    have hqY : doubleExponent (roundPos (r * m) * 1000) ≤ doubleExponent (r * m) + 10 := by
      apply doubleExponent_le_of_lt_zpow hYpos
      · have := doubleExponent_ge (r * m)
        omega
      · have hn53q : (n : ℚ) ≤ (2 : ℚ) ^ (53 : ℕ) := by exact_mod_cast hn53
        have h2 : roundPos (r * m) ≤ (2 : ℚ) ^ (53 : ℕ) * (2 : ℚ) ^ doubleExponent (r * m) := by
          rw [hX]
          exact mul_le_mul_of_nonneg_right hn53q (le_of_lt hqx)
        have h3 : (2 : ℚ) ^ (doubleExponent (r * m) + 10 + 53)
            = (2 : ℚ) ^ (63 : ℕ) * (2 : ℚ) ^ doubleExponent (r * m) := by
          have : doubleExponent (r * m) + 10 + 53 = (63 : ℤ) + doubleExponent (r * m) := by ring
          rw [this, zpow_add₀ (by norm_num)]
          norm_cast
        rw [h3]
        have h4 : (2 : ℚ) ^ (53 : ℕ) * 1000 < (2 : ℚ) ^ (63 : ℕ) := by norm_num
        nlinarith
    have hunitY : (2 : ℚ) ^ doubleExponent (roundPos (r * m) * 1000)
        ≤ 1024 * (2 : ℚ) ^ doubleExponent (r * m) := by
      have h2 := zpow_le_zpow_right₀ (by norm_num : (1 : ℚ) ≤ 2) hqY
      have h3 : (2 : ℚ) ^ (doubleExponent (r * m) + 10)
          = 1024 * (2 : ℚ) ^ doubleExponent (r * m) := by
        rw [zpow_add₀ (by norm_num)]
        have : (2 : ℚ) ^ (10 : ℤ) = 1024 := by norm_num
        rw [this]; ring
      linarith
    -- step 4: the second rounded product is below `m * 1000`
    have hfin : roundPos (roundPos (r * m) * 1000) < m * 1000 := by linarith
    exact lt_of_le_of_lt (Int.floor_le _) hfin


/-- A double has magnitude below `2^1024`. -/
theorem isDouble_abs_lt {x : ℚ} (hx : IsDouble x) : |x| < (2 : ℚ) ^ (1024 : ℕ) := by
  obtain ⟨n, q, hn, -, hq2, rfl⟩ := hx
  have hn2 : |(n : ℚ)| ≤ (2 : ℚ) ^ (53 : ℕ) - 1 := by
    have : |n| ≤ 2 ^ (53 : ℕ) - 1 := by omega
    exact_mod_cast this
  have hq : (2 : ℚ) ^ q ≤ (2 : ℚ) ^ (971 : ℤ) := zpow_le_zpow_right₀ (by norm_num) hq2
  have hpos := two_zpow_pos q
  rw [abs_mul, abs_of_pos hpos]
  have h971 : (2 : ℚ) ^ (971 : ℤ) = (2 : ℚ) ^ (971 : ℕ) := zpow_natCast (2 : ℚ) 971
  rw [h971] at hq
  have hb : (0 : ℚ) ≤ (2 : ℚ) ^ (53 : ℕ) - 1 := by norm_num
  have h1 : |(n : ℚ)| * (2 : ℚ) ^ q ≤ ((2 : ℚ) ^ (53 : ℕ) - 1) * (2 : ℚ) ^ (971 : ℕ) :=
    mul_le_mul hn2 hq (le_of_lt hpos) hb
  have h2 : ((2 : ℚ) ^ (53 : ℕ) - 1) * (2 : ℚ) ^ (971 : ℕ) < (2 : ℚ) ^ (1024 : ℕ) := by
    have : (2 : ℚ) ^ (1024 : ℕ) = (2 : ℚ) ^ (53 : ℕ) * (2 : ℚ) ^ (971 : ℕ) := by
      rw [← pow_add]
    rw [this]
    have : (0 : ℚ) < (2 : ℚ) ^ (971 : ℕ) := by positivity
    nlinarith
  linarith

theorem roundDouble_eq_fin {x : ℚ} (h1 : roundQ x < (2 : ℚ) ^ (1024 : ℕ))
    (h2 : -(2 : ℚ) ^ (1024 : ℕ) < roundQ x) : roundDouble x = .fin (roundQ x) := by
  unfold roundDouble
  rw [if_neg (not_le.mpr h1), if_neg (not_le.mpr h2)]

/-- Rounding a double gives the double itself. -/
theorem roundDouble_of_isDouble {x : ℚ} (hx : IsDouble x) : roundDouble x = .fin x := by
  have h := isDouble_abs_lt hx
  have h2 := abs_lt.mp h
  have hq := roundQ_of_isDouble hx
  rw [roundDouble_eq_fin (by rw [hq]; exact h2.2) (by rw [hq]; exact h2.1), hq]

/-- Rounding does not move a value across a double above it. -/
theorem roundPos_le_of_isDouble {x d : ℚ} (hx : 0 < x) (hd : IsDouble d) (h : x ≤ d) :
    roundPos x ≤ d := by
  obtain ⟨n, hn, -, -, hup, -⟩ := roundPos_spec hx
  have hdpos : 0 < d := lt_of_lt_of_le hx h
  have hpos := two_zpow_pos (doubleExponent x)
  obtain ⟨nd, qd, hnd, hqd1, -, hdeq⟩ := hd
  have hq : doubleExponent x ≤ qd := by
    have h2 := doubleExponent_mono hx h
    have h3 : doubleExponent d ≤ qd := by
      rw [hdeq]
      exact doubleExponent_le_of_isDouble hnd hqd1 (by rw [← hdeq]; exact hdpos)
    omega
  obtain ⟨K, -, hz⟩ := zpow_eq_int_mul hq
  by_contra hcon
  push_neg at hcon
  rw [hn, hdeq, hz] at hcon
  have h2 : ((nd * K : ℤ) : ℚ) < (n : ℚ) := by
    by_contra hc
    push_neg at hc
    have := mul_le_mul_of_nonneg_right hc (le_of_lt hpos)
    push_cast at this
    linarith
  have h3 : nd * K < n := by exact_mod_cast h2
  have h4 : ((nd * K : ℤ) : ℚ) + 1 ≤ (n : ℚ) := by
    have : nd * K + 1 ≤ n := by omega
    exact_mod_cast this
  have h5 := mul_le_mul_of_nonneg_right h4 (le_of_lt hpos)
  push_cast at h5
  rw [hn] at hup
  rw [hdeq, hz] at h
  linarith

/-- Rounding an integer above the largest time value does not bring it back into range. -/
theorem roundQ_gt_maxTimeValue {s : ℤ} (hs : maxTimeValue < s) :
    (maxTimeValue : ℚ) < roundQ (s : ℚ) := by
  have hspos : (0 : ℚ) < (s : ℚ) := by
    have : (0 : ℤ) < s := lt_trans (by decide) hs
    exact_mod_cast this
  by_cases hsmall : s < 2 ^ (53 : ℕ)
  · have hd : IsDouble (s : ℚ) := isDouble_intCast (by
      rw [abs_of_pos (by exact_mod_cast hspos)]; exact hsmall)
    rw [roundQ_of_isDouble hd]
    exact_mod_cast hs
  · push_neg at hsmall
    have hs53 : (2 : ℚ) ^ (53 : ℤ) ≤ (s : ℚ) := by
      have : ((2 ^ (53 : ℕ) : ℤ) : ℚ) ≤ (s : ℚ) := by exact_mod_cast hsmall
      have h53 : (2 : ℚ) ^ (53 : ℤ) = ((2 ^ (53 : ℕ) : ℤ) : ℚ) := by norm_cast
      rw [h53]; exact this
    rw [roundQ_of_pos hspos]
    obtain ⟨-, -, -, -, -, hlow⟩ := roundPos_spec hspos
    have hlog : 53 ≤ Int.log 2 (s : ℚ) := le_log_of_zpow_le hspos hs53
    have hq : doubleExponent (s : ℚ) = Int.log 2 (s : ℚ) - 52 := by
      unfold doubleExponent
      exact max_eq_left (by omega)
    have hunit : (2 : ℚ) ^ doubleExponent (s : ℚ) * (2 : ℚ) ^ (52 : ℕ) ≤ (s : ℚ) := by
      have h52 : (2 : ℚ) ^ (52 : ℕ) = (2 : ℚ) ^ (52 : ℤ) := by norm_cast
      rw [hq, h52, ← zpow_add₀ (by norm_num)]
      have : Int.log 2 (s : ℚ) - 52 + 52 = Int.log 2 (s : ℚ) := by ring
      rw [this]
      exact zpow_log_le hspos
    have h53' : (2 : ℚ) ^ (53 : ℤ) = (2 : ℚ) ^ (53 : ℕ) := by norm_cast
    rw [h53'] at hs53
    have hmax : (maxTimeValue : ℚ) = 8640000000000000 := by
      unfold maxTimeValue; norm_num
    rw [hmax]
    have hpos := two_zpow_pos (doubleExponent (s : ℚ))
    -- `roundPos s ≥ s - ulp/2 ≥ s (1 - 2^-53) ≥ 2^53 - 1`
    have h1 : (2 : ℚ) ^ doubleExponent (s : ℚ) / 2 ≤ (s : ℚ) / (2 : ℚ) ^ (53 : ℕ) := by
      rw [div_le_div_iff₀ (by norm_num) (by positivity)]
      have : (2 : ℚ) ^ (53 : ℕ) = 2 * (2 : ℚ) ^ (52 : ℕ) := by norm_num
      rw [this]
      nlinarith
    have h2 : (s : ℚ) - (s : ℚ) / (2 : ℚ) ^ (53 : ℕ) ≥ (2 : ℚ) ^ (53 : ℕ) - 1 := by
      have h3 : (s : ℚ) - (s : ℚ) / (2 : ℚ) ^ (53 : ℕ)
          = (s : ℚ) * (1 - 1 / (2 : ℚ) ^ (53 : ℕ)) := by ring
      have h4 : (2 : ℚ) ^ (53 : ℕ) - 1
          = (2 : ℚ) ^ (53 : ℕ) * (1 - 1 / (2 : ℚ) ^ (53 : ℕ)) := by field_simp
      rw [h3, h4]
      exact mul_le_mul_of_nonneg_right hs53 (by norm_num)
    have h5 : (8640000000000000 : ℚ) < (2 : ℚ) ^ (53 : ℕ) - 1 := by norm_num
    linarith


/-- The date built from an integer time value within range. -/
theorem newDate_intCast {s : ℤ} (hs : |s| ≤ maxTimeValue) : newDate (.fin (s : ℚ)) = some s := by
  have h1 : |(s : ℚ)| ≤ (maxTimeValue : ℚ) := by exact_mod_cast hs
  unfold newDate
  simp only [h1, if_true, Int.floor_intCast, Int.ceil_intCast, ite_self]

/-- The date built from the double sum of an integer time value beyond the range limit is
invalid. -/
theorem newDate_roundDouble_gt {s : ℤ} (hs : maxTimeValue < s) :
    newDate (roundDouble (s : ℚ)) = none := by
  have h := roundQ_gt_maxTimeValue hs
  have hmax : (0 : ℚ) ≤ (maxTimeValue : ℚ) := by unfold maxTimeValue; norm_num
  unfold roundDouble
  split_ifs with h1 h2
  · rfl
  · rfl
  · unfold newDate
    have : ¬ |roundQ (s : ℚ)| ≤ (maxTimeValue : ℚ) := by
      rw [abs_of_pos (lt_of_le_of_lt hmax h)]
      exact not_le.mpr h
    simp only [this, if_false]

/-- The value `randomTimeOffset` computes once the two products are known to be finite. -/
theorem randomTimeOffset_of_finite (baseTime : ℤ) (m r : ℚ)
    (h1 : roundDouble (r * m) = .fin (roundQ (r * m)))
    (h2 : roundDouble (roundQ (r * m) * 1000) = .fin (roundQ (roundQ (r * m) * 1000))) :
    randomTimeOffset (some baseTime) (some (.fin m)) (.fin r)
      = newDate (roundDouble (((baseTime + ⌊roundQ (roundQ (r * m) * 1000)⌋ : ℤ) : ℚ))) := by
  simp only [randomTimeOffset, Option.getD_some, JSNum.fmul, JSNum.mul, h1, h2, JSNum.floor,
    getTime, JSNum.fadd, JSNum.add, Int.cast_add]

/-- When the second product overflows the returned date is invalid. -/
theorem randomTimeOffset_of_overflow (baseTime : ℤ) (m r : ℚ)
    (h1 : roundDouble (r * m) = .fin (roundQ (r * m)))
    (h2 : roundDouble (roundQ (r * m) * 1000) = .posInf) :
    randomTimeOffset (some baseTime) (some (.fin m)) (.fin r) = none := by
  simp only [randomTimeOffset, Option.getD_some, JSNum.fmul, JSNum.mul, h1, h2, JSNum.floor,
    getTime, JSNum.fadd, JSNum.add, newDate]

/-- The first product of `randomTimeOffset` does not overflow. -/
theorem first_product_finite {m r : ℚ} (hm : IsDouble m) (hmpos : 0 < m) (h0 : 0 ≤ r)
    (h1 : r < 1) : roundDouble (r * m) = .fin (roundQ (r * m)) := by
  have hnn := roundQ_nonneg (mul_nonneg h0 (le_of_lt hmpos))
  have hmlt := (abs_lt.mp (isDouble_abs_lt hm)).2
  have hle : roundQ (r * m) ≤ m := by
    rcases eq_or_lt_of_le h0 with hr0 | hrpos
    · rw [← hr0, zero_mul, roundQ_zero]; exact le_of_lt hmpos
    · have hx : 0 < r * m := mul_pos hrpos hmpos
      rw [roundQ_of_pos hx]
      exact roundPos_le_of_isDouble hx hm (by nlinarith)
  apply roundDouble_eq_fin
  · linarith
  · have : (0 : ℚ) < (2 : ℚ) ^ (1024 : ℕ) := by positivity
    linarith

theorem log_eq_of_bounds {x : ℚ} (hx : 0 < x) {a : ℤ} (h1 : (2 : ℚ) ^ a ≤ x)
    (h2 : x < (2 : ℚ) ^ (a + 1)) : Int.log 2 x = a := by
  have h3 := le_log_of_zpow_le hx h1
  have h4 := log_lt_of_lt_zpow hx h2
  omega

/-- The double products are not the exact products: at the draw `18164518497061 / 2^52` and
the default bound the exact offset `r * 60 * 1000` has floor 241, and the code adds 242. -/
theorem randomTimeOffset_rounds_up :
    randomTimeOffset (some 0) none (.fin (18164518497061 / 2 ^ (52 : ℕ))) = some 242 ∧
    ⌊(18164518497061 / 2 ^ (52 : ℕ) : ℚ) * 60 * 1000⌋ = 241 := by
  constructor
  · have hx : (18164518497061 / 2 ^ (52 : ℕ) : ℚ) * 60
        = ((8718968878589280 : ℤ) : ℚ) * (2 : ℚ) ^ (-55 : ℤ) := by
      rw [zpow_neg]
      norm_num
    have hdx : IsDouble ((18164518497061 / 2 ^ (52 : ℕ) : ℚ) * 60) :=
      ⟨8718968878589280, -55, by norm_num, by norm_num, by norm_num, hx⟩
    have hq1 := roundQ_of_isDouble hdx
    have h1 : roundDouble ((18164518497061 / 2 ^ (52 : ℕ) : ℚ) * 60)
        = .fin (roundQ ((18164518497061 / 2 ^ (52 : ℕ) : ℚ) * 60)) := by
      rw [hq1]; exact roundDouble_of_isDouble hdx
    have hypos : (0 : ℚ) < (18164518497061 / 2 ^ (52 : ℕ) : ℚ) * 60 * 1000 := by norm_num
    have hlog : Int.log 2 ((18164518497061 / 2 ^ (52 : ℕ) : ℚ) * 60 * 1000) = 7 := by
      apply log_eq_of_bounds hypos
      · norm_num
      · norm_num
    have hexp : doubleExponent ((18164518497061 / 2 ^ (52 : ℕ) : ℚ) * 60 * 1000) = -45 := by
      unfold doubleExponent
      rw [hlog]
      norm_num
    have hscaled : (18164518497061 / 2 ^ (52 : ℕ) : ℚ) * 60 * 1000 / (2 : ℚ) ^ (-45 : ℤ)
        = 34058472181989375 / 4 := by
      rw [zpow_neg]
      norm_num
    have hfloor : ⌊(34058472181989375 / 4 : ℚ)⌋ = 8514618045497343 := by
      rw [Int.floor_eq_iff]
      norm_num
    have hround : roundHalfEven (34058472181989375 / 4 : ℚ) = 8514618045497344 := by
      unfold roundHalfEven
      rw [hfloor]
      norm_num
    have hq2 : roundQ (roundQ ((18164518497061 / 2 ^ (52 : ℕ) : ℚ) * 60) * 1000) = 242 := by
      rw [hq1, roundQ_of_pos hypos]
      unfold roundPos
      rw [hexp, hscaled, hround, zpow_neg]
      norm_num
    have hd242 : IsDouble 242 := ⟨242, 0, by norm_num, by norm_num, by norm_num, by norm_num⟩
    have h2 : roundDouble (roundQ ((18164518497061 / 2 ^ (52 : ℕ) : ℚ) * 60) * 1000)
        = .fin (roundQ (roundQ ((18164518497061 / 2 ^ (52 : ℕ) : ℚ) * 60) * 1000)) := by
      apply roundDouble_eq_fin
      · rw [hq2]
        have : (242 : ℚ) < (2 : ℚ) ^ (8 : ℕ) := by norm_num
        have h1024 : (2 : ℚ) ^ (8 : ℕ) ≤ (2 : ℚ) ^ (1024 : ℕ) :=
          pow_le_pow_right₀ (by norm_num) (by norm_num)
        linarith
      · rw [hq2]
        have : (0 : ℚ) < (2 : ℚ) ^ (1024 : ℕ) := by positivity
        linarith
    have hdef : randomTimeOffset (some 0) none (.fin (18164518497061 / 2 ^ (52 : ℕ)))
        = randomTimeOffset (some 0) (some (.fin 60)) (.fin (18164518497061 / 2 ^ (52 : ℕ))) :=
      rfl
    rw [hdef, randomTimeOffset_of_finite 0 60 _ h1 h2, hq2]
    have hfl : ⌊(242 : ℚ)⌋ = 242 := by
      rw [Int.floor_eq_iff]
      norm_num
    rw [hfl]
    have hd : IsDouble (((0 + 242 : ℤ)) : ℚ) := isDouble_intCast (by norm_num)
    rw [roundDouble_of_isDouble hd]
    exact newDate_intCast (by unfold maxTimeValue; norm_num)
  · rw [Int.floor_eq_iff]
    norm_num

/-! ## The claims -/

/-- C1: for every flag combination and every duration the filter list built by
`applyOverlaysOnVideo` is topologically valid: each input label of each filter is a raw input
reference or the output label of a filter that occurs strictly earlier in the list. -/
theorem C1_filters_topologically_valid (mathPI : JSNum) (inputFilePath : String)
    (hasHair hasSubscribeOverlay : Bool) (videoDuration : JSNum) :
    TopoValid
      (applyOverlaysOnVideo mathPI inputFilePath hasHair hasSubscribeOverlay
          videoDuration).filters := by
  apply topoValidB_sound 3
  cases hasHair <;> cases hasSubscribeOverlay <;> rfl

/-- C2: the main video is input 0 and the enabled overlays get consecutive indices from 1,
the GIF before the PNG: both enabled gives gif = 1 and hair = 2, only subscribe gives gif = 1
and hair = null, only hair gives hair = 1 and gif = null, neither gives both null and a
command whose single input is the main video. -/
theorem C2_input_index_assignment (mathPI : JSNum) (inputFilePath : String)
    (videoDuration : JSNum) :
    (∀ hasHair hasSubscribeOverlay : Bool,
      (applyOverlaysOnVideo mathPI inputFilePath hasHair hasSubscribeOverlay
          videoDuration).command[0]?
        = some { path := inputFilePath, inputOptions := [] }) ∧
    ((applyOverlaysOnVideo mathPI inputFilePath true true videoDuration).gifInputIndex = some 1 ∧
      (applyOverlaysOnVideo mathPI inputFilePath true true videoDuration).hairInputIndex
        = some 2 ∧
      (applyOverlaysOnVideo mathPI inputFilePath true true videoDuration).inputCount = 3) ∧
    ((applyOverlaysOnVideo mathPI inputFilePath false true videoDuration).gifInputIndex
        = some 1 ∧
      (applyOverlaysOnVideo mathPI inputFilePath false true videoDuration).hairInputIndex
        = none ∧
      (applyOverlaysOnVideo mathPI inputFilePath false true videoDuration).inputCount = 2) ∧
    ((applyOverlaysOnVideo mathPI inputFilePath true false videoDuration).hairInputIndex
        = some 1 ∧
      (applyOverlaysOnVideo mathPI inputFilePath true false videoDuration).gifInputIndex
        = none ∧
      (applyOverlaysOnVideo mathPI inputFilePath true false videoDuration).inputCount = 2) ∧
    ((applyOverlaysOnVideo mathPI inputFilePath false false videoDuration).gifInputIndex
        = none ∧
      (applyOverlaysOnVideo mathPI inputFilePath false false videoDuration).hairInputIndex
        = none ∧
      (applyOverlaysOnVideo mathPI inputFilePath false false videoDuration).inputCount = 1 ∧
      (applyOverlaysOnVideo mathPI inputFilePath false false videoDuration).command
        = [{ path := inputFilePath, inputOptions := [] }]) := by
  refine ⟨?_, ⟨rfl, rfl, rfl⟩, ⟨rfl, rfl, rfl⟩, ⟨rfl, rfl, rfl⟩, ⟨rfl, rfl, rfl, rfl⟩⟩
  intro hasHair hasSubscribeOverlay
  cases hasHair <;> cases hasSubscribeOverlay <;> rfl

/-- C3: with both flags false the filter list is exactly the video setpts filter
(`0:v` to `v1`), the audio atempo filter (`0:a` to `a`) and a null passthrough (`v1` to `v`),
in this order; no filter is a scale, rotate or overlay filter, and the mapped final labels
are `v` and `a`. -/
theorem C3_no_overlays_three_filters (mathPI : JSNum) (inputFilePath : String)
    (videoDuration : JSNum) :
    (applyOverlaysOnVideo mathPI inputFilePath false false videoDuration).filters
      = [{ filter := "setpts"
           options := some (.str [.num ((JSNum.fin 1).div SPEED_FACTOR), .lit "*PTS"])
           inputs := some (.one "0:v")
           outputs := some "v1" },
         { filter := "atempo"
           options := some (.str [.num SPEED_FACTOR])
           inputs := some (.one "0:a")
           outputs := some "a" },
         { filter := "null"
           options := none
           inputs := some (.one "v1")
           outputs := some "v" }] ∧
    (applyOverlaysOnVideo mathPI inputFilePath false false videoDuration).filters.length = 3 ∧
    (∀ f ∈ (applyOverlaysOnVideo mathPI inputFilePath false false videoDuration).filters,
      f.filter ≠ "scale" ∧ f.filter ≠ "rotate" ∧ f.filter ≠ "overlay") ∧
    (applyOverlaysOnVideo mathPI inputFilePath false false videoDuration).outputOptions
      = ["-map", "[v]", "-map", "[a]", "-shortest"] := by
  refine ⟨rfl, rfl, ?_, rfl⟩
  intro f hf
  rw [filters_eq] at hf
  simp only [Bool.false_eq_true, if_false, List.append_nil, List.cons_append, List.nil_append,
    List.mem_cons, List.mem_singleton, List.not_mem_nil, or_false] at hf
  rcases hf with rfl | rfl | rfl <;> exact ⟨by decide, by decide, by decide⟩

/-- C4: the overlay start time is `max(0, duration - window)`, with window 3 in
`applyOverlaysOnVideo` and 4 in `t.js`: it is 0 for every duration less than or equal to
the window and exactly `duration - window` for every duration greater than the window. -/
theorem C4_overlay_start_time :
    (∀ q : ℚ, overlayStartTime (.fin q) = .fin (max 0 (q - 3))) ∧
    (∀ q : ℚ, tOverlayStartTime (.fin q) = .fin (max 0 (q - 4))) ∧
    (∀ d : JSNum, d.le GIF_OVERLAY_DURATION = true → overlayStartTime d = .fin 0) ∧
    (∀ d : JSNum, d.gt GIF_OVERLAY_DURATION = true →
      overlayStartTime d = d.sub GIF_OVERLAY_DURATION) ∧
    (∀ d : JSNum, d.le (.fin 4) = true → tOverlayStartTime d = .fin 0) ∧
    (∀ d : JSNum, d.gt (.fin 4) = true → tOverlayStartTime d = d.sub (.fin 4)) := by
  refine ⟨?_, ?_, ?_, ?_, ?_, ?_⟩
  · intro q
    by_cases h : (3 : ℚ) < q
    · have h2 : max 0 (q - 3) = q - 3 := max_eq_right (by linarith)
      simp [overlayStartTime, GIF_OVERLAY_DURATION, JSNum.gt, JSNum.sub, h, h2]
    · have h2 : max 0 (q - 3) = 0 := max_eq_left (by linarith)
      simp [overlayStartTime, GIF_OVERLAY_DURATION, JSNum.gt, h, h2]
  · intro q
    by_cases h : (4 : ℚ) < q
    · have h2 : max 0 (q - 4) = q - 4 := max_eq_right (by linarith)
      simp [tOverlayStartTime, JSNum.gt, JSNum.sub, h, h2]
    · have h2 : max 0 (q - 4) = 0 := max_eq_left (by linarith)
      simp [tOverlayStartTime, JSNum.gt, h, h2]
  · intro d hd
    cases d <;> simp_all [overlayStartTime, GIF_OVERLAY_DURATION, JSNum.gt, JSNum.le]
  · intro d hd
    simp [overlayStartTime, hd]
  · intro d hd
    cases d <;> simp_all [tOverlayStartTime, JSNum.gt, JSNum.le]
  · intro d hd
    simp [tOverlayStartTime, hd]

/-- C4, at durations 2 and 10: start 0 for the short clip, 7 and 6 for the long one. -/
theorem C4_overlay_start_time_witness :
    overlayStartTime (.fin 2) = .fin 0 ∧ overlayStartTime (.fin 10) = .fin 7 ∧
    tOverlayStartTime (.fin 2) = .fin 0 ∧ tOverlayStartTime (.fin 10) = .fin 6 := by
  obtain ⟨-, -, h3le, h3gt, h4le, h4gt⟩ := C4_overlay_start_time
  refine ⟨h3le (.fin 2) ?_, ?_, h4le (.fin 2) ?_, ?_⟩
  · simp [JSNum.le, GIF_OVERLAY_DURATION]; norm_num
  · rw [h3gt (.fin 10) (by simp [JSNum.gt, GIF_OVERLAY_DURATION]; norm_num)]
    simp [JSNum.sub, GIF_OVERLAY_DURATION]; norm_num
  · simp [JSNum.le]; norm_num
  · rw [h4gt (.fin 10) (by simp [JSNum.gt]; norm_num)]
    simp [JSNum.sub]; norm_num

/-- C5: for every flag combination and duration the first two filters are the speed stage:
a setpts filter on `0:v` producing `v1` whose timestamp factor is `1 / SPEED_FACTOR`, and an
atempo filter on `0:a` producing `a` whose tempo is `SPEED_FACTOR` itself; the product of the
two factors is exactly 1. -/
theorem C5_speed_stage_first (mathPI : JSNum) (inputFilePath : String)
    (hasHair hasSubscribeOverlay : Bool) (videoDuration : JSNum) :
    (applyOverlaysOnVideo mathPI inputFilePath hasHair hasSubscribeOverlay
        videoDuration).filters[0]?
      = some { filter := "setpts"
               options := some (.str [.num ((JSNum.fin 1).div SPEED_FACTOR), .lit "*PTS"])
               inputs := some (.one "0:v")
               outputs := some "v1" } ∧
    (applyOverlaysOnVideo mathPI inputFilePath hasHair hasSubscribeOverlay
        videoDuration).filters[1]?
      = some { filter := "atempo"
               options := some (.str [.num SPEED_FACTOR])
               inputs := some (.one "0:a")
               outputs := some "a" } ∧
    SPEED_FACTOR = .fin (101 / 100) ∧
    (JSNum.fin 1).div SPEED_FACTOR = .fin (100 / 101) ∧
    ((JSNum.fin 1).div SPEED_FACTOR).mul SPEED_FACTOR = .fin 1 := by
  refine ⟨?_, ?_, rfl, ?_, ?_⟩
  · cases hasHair <;> cases hasSubscribeOverlay <;> rfl
  · cases hasHair <;> cases hasSubscribeOverlay <;> rfl
  · simp [SPEED_FACTOR, JSNum.div]
  · simp [SPEED_FACTOR, JSNum.div, JSNum.mul]

/-- C6: the GIF stage (the delay filter reading `<gifInputIndex>:v` and producing
`delayedGif`, immediately followed by the centered overlay of `[v1, delayedGif]` producing
`v2`) is in the filter list exactly when `hasSubscribeOverlay` is true, in which case it
sits at positions 2 and 3 and reads the assigned GIF input; when the flag is false no filter
mentions the labels `delayedGif` and `v2`. -/
theorem C6_gif_stage_iff_subscribe (mathPI : JSNum) (inputFilePath : String)
    (hasHair hasSubscribeOverlay : Bool) (videoDuration : JSNum) :
    ((∃ i n, GifStageAt (applyOverlaysOnVideo mathPI inputFilePath hasHair hasSubscribeOverlay
        videoDuration).filters i n) ↔ hasSubscribeOverlay = true) ∧
    (hasSubscribeOverlay = true →
      ∃ n, (applyOverlaysOnVideo mathPI inputFilePath hasHair hasSubscribeOverlay
          videoDuration).gifInputIndex = some n ∧
        GifStageAt (applyOverlaysOnVideo mathPI inputFilePath hasHair hasSubscribeOverlay
          videoDuration).filters 2 n) ∧
    (hasSubscribeOverlay = false →
      ∀ f ∈ (applyOverlaysOnVideo mathPI inputFilePath hasHair hasSubscribeOverlay
          videoDuration).filters,
        ¬ f.mentions "delayedGif" ∧ ¬ f.mentions "v2") := by
  have habsent : ∀ hh : Bool,
      ∀ f ∈ (applyOverlaysOnVideo mathPI inputFilePath hh false videoDuration).filters,
        ¬ f.mentions "delayedGif" ∧ ¬ f.mentions "v2" := by
    intro hh
    cases hh
    · exact forall_mem_of_all (by rfl)
    · exact forall_mem_of_all (by rfl)
  have hpresent : ∀ hh : Bool,
      GifStageAt (applyOverlaysOnVideo mathPI inputFilePath hh true videoDuration).filters 2 1 := by
    intro hh
    cases hh
    · exact ⟨_, _, rfl, rfl, rfl, rfl, rfl, rfl, rfl, rfl, rfl, rfl⟩
    · exact ⟨_, _, rfl, rfl, rfl, rfl, rfl, rfl, rfl, rfl, rfl, rfl⟩
  refine ⟨?_, ?_, ?_⟩
  · constructor
    · rintro ⟨i, n, fd, fo, hfd, -, -, -, hout, -⟩
      cases hasSubscribeOverlay with
      | true => rfl
      | false =>
        exfalso
        have hmem := List.getElem?_mem hfd
        exact (habsent hasHair fd hmem).1 (Or.inl hout)
    · intro hs
      subst hs
      exact ⟨2, 1, hpresent hasHair⟩
  · intro hs
    subst hs
    refine ⟨1, ?_, hpresent hasHair⟩
    cases hasHair <;> rfl
  · intro hs
    subst hs
    exact habsent hasHair

/-- C6 at `hasHair = true`, duration 10: with the flag set the GIF stage is at positions 2
and 3 and reads input 1; with the flag cleared no filter mentions `delayedGif` or `v2`. -/
theorem C6_gif_stage_iff_subscribe_witness :
    (∃ n, (applyOverlaysOnVideo (.fin 3) "in.mp4" true true (.fin 10)).gifInputIndex = some n ∧
      GifStageAt (applyOverlaysOnVideo (.fin 3) "in.mp4" true true (.fin 10)).filters 2 n) ∧
    (∀ f ∈ (applyOverlaysOnVideo (.fin 3) "in.mp4" true false (.fin 10)).filters,
      ¬ f.mentions "delayedGif" ∧ ¬ f.mentions "v2") :=
  ⟨(C6_gif_stage_iff_subscribe (.fin 3) "in.mp4" true true (.fin 10)).2.1 rfl,
   (C6_gif_stage_iff_subscribe (.fin 3) "in.mp4" true false (.fin 10)).2.2 rfl⟩

/-- C7: whenever the GIF stage is emitted, the delay filter shifts the GIF timestamps by
`PTS+<overlayStart>/TB` and the composite is enabled by `between(t,<overlayStart>,<duration>)`
with the same value `overlayStart = overlayStartTime duration`; for duration 2 (window 3) the
window is `[0, 2]`. -/
theorem C7_delay_equals_enable_lower_bound (mathPI : JSNum) (inputFilePath : String)
    (hasHair : Bool) (videoDuration : JSNum) :
    (∃ gifInputIndex : Nat,
      (applyOverlaysOnVideo mathPI inputFilePath hasHair true videoDuration).filters[2]?
        = some { filter := "setpts"
                 options := some (.str
                   [.lit "PTS+", .num (overlayStartTime videoDuration), .lit "/TB"])
                 inputs := some (.one (toString gifInputIndex ++ ":v"))
                 outputs := some "delayedGif" }) ∧
    (applyOverlaysOnVideo mathPI inputFilePath hasHair true videoDuration).filters[3]?
      = some { filter := "overlay"
               options := some (.obj
                 [("x", [.lit "(main_w-overlay_w)/2"]),
                  ("y", [.lit "(main_h-overlay_h)/2"]),
                  ("format", [.lit "auto"]),
                  ("enable",
                    [.lit "between(t,", .num (overlayStartTime videoDuration), .lit ",",
                      .num videoDuration, .lit ")"])])
               inputs := some (.many ["v1", "delayedGif"])
               outputs := some "v2" } ∧
    (∃ fo, (applyOverlaysOnVideo mathPI inputFilePath hasHair true (.fin 2)).filters[3]?
        = some fo ∧
      fo.optionField "enable"
        = some [.lit "between(t,", .num (.fin 0), .lit ",", .num (.fin 2), .lit ")"]) := by
  have h2 : overlayStartTime (.fin 2) = .fin 0 := by
    simp [overlayStartTime, GIF_OVERLAY_DURATION, JSNum.gt]; norm_num
  refine ⟨⟨1, ?_⟩, ?_, ⟨gifOverlayFilter (.fin 2), ?_, ?_⟩⟩
  · cases hasHair <;> rfl
  · cases hasHair <;> rfl
  · cases hasHair <;> rfl
  · show some (gifEnableExpr (.fin 2)) = _
    simp [gifEnableExpr, h2]

/-- C8: the list ends with the hair stage exactly when `hasHair` is true: then its last three
filters are scale `360:360` reading `<hairInputIndex>:v`, rotate `<angleRadians>:fillcolor=none`
and a centered overlay producing `v`, and no filter is a null filter; when `hasHair` is false
the last filter is the null filter producing `v`, it is the only null filter, and no filter
is a scale or rotate filter. -/
theorem C8_hair_stage_or_passthrough_last (mathPI : JSNum) (inputFilePath : String)
    (hasSubscribeOverlay : Bool) (videoDuration : JSNum) :
    (∃ hairInputIndex : Nat,
      (applyOverlaysOnVideo mathPI inputFilePath true hasSubscribeOverlay
          videoDuration).hairInputIndex = some hairInputIndex ∧
      (applyOverlaysOnVideo mathPI inputFilePath true hasSubscribeOverlay
          videoDuration).filters.drop
        ((applyOverlaysOnVideo mathPI inputFilePath true hasSubscribeOverlay
          videoDuration).filters.length - 3)
        = [{ filter := "scale"
             options := some (.str [.lit "360:360"])
             inputs := some (.one (toString hairInputIndex ++ ":v"))
             outputs := some "scaledOverlay" },
           { filter := "rotate"
             options := some (.str
               [.num ((HAIR_ANGLE_ROTATE.mul mathPI).div (.fin 180)), .lit ":fillcolor=none"])
             inputs := some (.one "scaledOverlay")
             outputs := some "rotatedOverlay" },
           { filter := "overlay"
             options := some (.obj
               [("x", [.lit "(main_w-overlay_w)/2"]),
                ("y", [.lit "(main_h-overlay_h)/2"])])
             inputs := some (.many
               [(applyOverlaysOnVideo mathPI inputFilePath true hasSubscribeOverlay
                  videoDuration).baseVideo, "rotatedOverlay"])
             outputs := some "v" }]) ∧
    (∀ f ∈ (applyOverlaysOnVideo mathPI inputFilePath true hasSubscribeOverlay
        videoDuration).filters, f.filter ≠ "null") ∧
    (applyOverlaysOnVideo mathPI inputFilePath false hasSubscribeOverlay
        videoDuration).filters.getLast?
      = some { filter := "null"
               options := none
               inputs := some (.one
                 (applyOverlaysOnVideo mathPI inputFilePath false hasSubscribeOverlay
                   videoDuration).baseVideo)
               outputs := some "v" } ∧
    (applyOverlaysOnVideo mathPI inputFilePath false hasSubscribeOverlay
        videoDuration).filters.countP (fun f => f.filter == "null") = 1 ∧
    (∀ f ∈ (applyOverlaysOnVideo mathPI inputFilePath false hasSubscribeOverlay
        videoDuration).filters, f.filter ≠ "scale" ∧ f.filter ≠ "rotate") := by
  refine ⟨?_, ?_, ?_, ?_, ?_⟩
  · cases hasSubscribeOverlay
    · exact ⟨1, rfl, rfl⟩
    · exact ⟨2, rfl, rfl⟩
  · cases hasSubscribeOverlay
    · exact forall_mem_of_all (by rfl)
    · exact forall_mem_of_all (by rfl)
  · cases hasSubscribeOverlay <;> rfl
  · cases hasSubscribeOverlay <;> rfl
  · cases hasSubscribeOverlay
    · exact forall_mem_of_all (by rfl)
    · exact forall_mem_of_all (by rfl)

/-- C9: for every flag combination there is a filter producing the terminal label `v` (the
last one), and every filter producing `v` takes as its first (base) input `v2` when
`hasSubscribeOverlay` is true and `v1` when it is false. -/
theorem C9_terminal_filter_base_input (mathPI : JSNum) (inputFilePath : String)
    (hasHair hasSubscribeOverlay : Bool) (videoDuration : JSNum) :
    (∃ f, (applyOverlaysOnVideo mathPI inputFilePath hasHair hasSubscribeOverlay
        videoDuration).filters.getLast? = some f ∧ f.outputs = some "v") ∧
    (∀ f ∈ (applyOverlaysOnVideo mathPI inputFilePath hasHair hasSubscribeOverlay
        videoDuration).filters,
      f.outputs = some "v" →
        f.inputLabels.head? = some (if hasSubscribeOverlay then "v2" else "v1")) := by
  constructor
  · cases hasHair <;> cases hasSubscribeOverlay <;> exact ⟨_, rfl, rfl⟩
  · cases hasHair <;> cases hasSubscribeOverlay <;> exact forall_mem_of_all (by rfl)

/-- C9 at duration 10: the passthrough reads `v1` without the GIF stage, and the hair composite
reads `v2` with it. -/
theorem C9_terminal_filter_base_input_witness :
    (passthroughFilter "v1").inputLabels.head? = some "v1" ∧
    (hairOverlayFilter "v2").inputLabels.head? = some "v2" :=
  ⟨(C9_terminal_filter_base_input (.fin 3) "in.mp4" false false (.fin 10)).2
      (passthroughFilter "v1") (by decide) rfl,
   (C9_terminal_filter_base_input (.fin 3) "in.mp4" true true (.fin 10)).2
      (hairOverlayFilter "v2") (by rw [filters_eq]; simp) rfl⟩

/-- C10: for every flag combination and duration exactly one filter has output label `v` and
exactly one has output label `a`, the two labels mapped by the output options
`-map [v] -map [a]`. -/
theorem C10_terminal_labels_produced_once (mathPI : JSNum) (inputFilePath : String)
    (hasHair hasSubscribeOverlay : Bool) (videoDuration : JSNum) :
    (applyOverlaysOnVideo mathPI inputFilePath hasHair hasSubscribeOverlay
        videoDuration).filters.countP (fun f => f.outputs == some "v") = 1 ∧
    (applyOverlaysOnVideo mathPI inputFilePath hasHair hasSubscribeOverlay
        videoDuration).filters.countP (fun f => f.outputs == some "a") = 1 ∧
    (applyOverlaysOnVideo mathPI inputFilePath hasHair hasSubscribeOverlay
        videoDuration).outputOptions = ["-map", "[v]", "-map", "[a]", "-shortest"] := by
  cases hasHair <;> cases hasSubscribeOverlay <;> exact ⟨rfl, rfl, rfl⟩

/-- C11: with both overlays enabled the GIF composite (overlay producing `v2`) is in the list
at a smaller position than the hair composite (overlay producing `v`), the hair composite
takes `v2` as an input, and the GIF composite does not take `v` as an input; this holds for
every filter producing `v2` and every filter producing `v`. -/
theorem C11_gif_composite_before_hair_composite (mathPI : JSNum) (inputFilePath : String)
    (videoDuration : JSNum) :
    (∃ (i j : Nat) (fg fh : FilterComplexOption),
      (applyOverlaysOnVideo mathPI inputFilePath true true videoDuration).filters[i]? = some fg ∧
      (applyOverlaysOnVideo mathPI inputFilePath true true videoDuration).filters[j]? = some fh ∧
      fg.filter = "overlay" ∧ fg.outputs = some "v2" ∧
      fh.filter = "overlay" ∧ fh.outputs = some "v" ∧
      i < j ∧ "v2" ∈ fh.inputLabels ∧ "v" ∉ fg.inputLabels) ∧
    (∀ (i j : Nat) (fg fh : FilterComplexOption),
      (applyOverlaysOnVideo mathPI inputFilePath true true videoDuration).filters[i]? = some fg →
      (applyOverlaysOnVideo mathPI inputFilePath true true videoDuration).filters[j]? = some fh →
      fg.outputs = some "v2" → fh.outputs = some "v" →
        i < j ∧ "v2" ∈ fh.inputLabels ∧ "v" ∉ fg.inputLabels) := by
  constructor
  · exact ⟨3, 6, gifOverlayFilter videoDuration, hairOverlayFilter "v2", rfl, rfl, rfl, rfl,
      rfl, rfl, by decide, by decide, by
        simp [gifOverlayFilter, FilterComplexOption.inputLabels]⟩
  · intro i j fg fh hi hj
    exact forall_pair_of_enum_all
      (fun i (fg : FilterComplexOption) j (fh : FilterComplexOption) =>
        fg.outputs = some "v2" → fh.outputs = some "v" →
          i < j ∧ "v2" ∈ fh.inputLabels ∧ "v" ∉ fg.inputLabels)
      (by rfl) i j fg fh hi hj

/-- C11 at duration 10: the GIF composite at position 3 and the hair composite at position 6
satisfy the ordering. -/
theorem C11_gif_composite_before_hair_composite_witness :
    3 < 6 ∧ "v2" ∈ (hairOverlayFilter "v2").inputLabels ∧
      "v" ∉ (gifOverlayFilter (.fin 10)).inputLabels :=
  (C11_gif_composite_before_hair_composite (.fin 3) "in.mp4" (.fin 10)).2 3 6
    (gifOverlayFilter (.fin 10)) (hairOverlayFilter "v2") rfl rfl rfl rfl

/-- C12, counterexample: with a `NaN` duration (an invalid duration) and a successful
engine run the promise resolves, the seven-filter list is built, and the overlay start is 0:
the call does not fail. -/
theorem C12_counterexample_nan_duration :
    IsInvalidDuration .nan ∧
    (applyOverlaysOnVideoRun posixPath (.fin (355 / 113)) "videos/in.mp4" true true
        (.metadata .nan) .ended).settlement = .resolved "videos/in_final.mp4" ∧
    (applyOverlaysOnVideoRun posixPath (.fin (355 / 113)) "videos/in.mp4" true true
        (.metadata .nan) .ended).build
      = some (applyOverlaysOnVideo (.fin (355 / 113)) "videos/in.mp4" true true .nan) ∧
    (applyOverlaysOnVideo (.fin (355 / 113)) "videos/in.mp4" true true .nan).filters.length
      = 7 ∧
    overlayStartTime .nan = .fin 0 := by
  refine ⟨Or.inl rfl, ?_, rfl, rfl, rfl⟩
  show Settlement.resolved (generateDynamicOutputPath posixPath "videos/in.mp4" "_final")
    = .resolved "videos/in_final.mp4"
  have : generateDynamicOutputPath posixPath "videos/in.mp4" "_final" = "videos/in_final.mp4" := by
    decide
  rw [this]

/-- C12, amended: the probed duration is not validated. Whenever the probe succeeds, for
every duration value the filter list is built and the command is saved to the output path,
and the promise is settled by the engine event alone; an invalid duration other than
`+Infinity` gives overlay start 0, and `+Infinity` gives `+Infinity`. -/
theorem C12_duration_not_validated (path : PathModule) (mathPI : JSNum)
    (inputFilePath : String) (hasHair hasSubscribeOverlay : Bool) (videoDuration : JSNum) :
    (∀ engine : EngineEvent,
      (applyOverlaysOnVideoRun path mathPI inputFilePath hasHair hasSubscribeOverlay
          (.metadata videoDuration) engine).build
        = some (applyOverlaysOnVideo mathPI inputFilePath hasHair hasSubscribeOverlay
            videoDuration) ∧
      (applyOverlaysOnVideoRun path mathPI inputFilePath hasHair hasSubscribeOverlay
          (.metadata videoDuration) engine).saved
        = some (generateDynamicOutputPath path inputFilePath "_final")) ∧
    (applyOverlaysOnVideoRun path mathPI inputFilePath hasHair hasSubscribeOverlay
        (.metadata videoDuration) .ended).settlement
      = .resolved (generateDynamicOutputPath path inputFilePath "_final") ∧
    (∀ err : JSError,
      (applyOverlaysOnVideoRun path mathPI inputFilePath hasHair hasSubscribeOverlay
          (.metadata videoDuration) (.failed err)).settlement = .rejected err) ∧
    (IsInvalidDuration videoDuration → videoDuration ≠ .posInf →
      overlayStartTime videoDuration = .fin 0) ∧
    overlayStartTime .posInf = .posInf := by
  refine ⟨?_, rfl, fun _ => rfl, ?_, rfl⟩
  · intro engine
    cases engine <;> exact ⟨rfl, rfl⟩
  · intro hinv hne
    rcases hinv with h | h | h | ⟨q, h, hq⟩
    · subst h; rfl
    · exact absurd h hne
    · subst h; rfl
    · subst h
      have : ¬ (3 : ℚ) < q := by linarith
      simp [overlayStartTime, GIF_OVERLAY_DURATION, JSNum.gt, this]

/-- C12 amended, at duration -5: an invalid duration, and the overlay start is 0. -/
theorem C12_duration_not_validated_witness :
    IsInvalidDuration (.fin (-5)) ∧ overlayStartTime (.fin (-5)) = .fin 0 :=
  ⟨Or.inr (Or.inr (Or.inr ⟨-5, rfl, by norm_num⟩)),
   (C12_duration_not_validated posixPath (.fin 3) "in.mp4" true true (.fin (-5))).2.2.2.1
     (Or.inr (Or.inr (Or.inr ⟨-5, rfl, by norm_num⟩))) (by simp)⟩

/-- C14: when the probe reports an error the promise is rejected with that same error, no
filter list is built, no command is saved and no file is deleted, whatever the flags and
whatever the engine would have done. -/
theorem C14_probe_error_rejects_before_build (path : PathModule) (mathPI : JSNum)
    (inputFilePath : String) (hasHair hasSubscribeOverlay : Bool) (err : JSError)
    (engine : EngineEvent) :
    (applyOverlaysOnVideoRun path mathPI inputFilePath hasHair hasSubscribeOverlay
        (.error err) engine).settlement = .rejected err ∧
    (applyOverlaysOnVideoRun path mathPI inputFilePath hasHair hasSubscribeOverlay
        (.error err) engine).build = none ∧
    (applyOverlaysOnVideoRun path mathPI inputFilePath hasHair hasSubscribeOverlay
        (.error err) engine).saved = none ∧
    (applyOverlaysOnVideoRun path mathPI inputFilePath hasHair hasSubscribeOverlay
        (.error err) engine).unlinked = [] :=
  ⟨rfl, rfl, rfl, rfl⟩

/-- C15: the source file is deleted exactly when the engine reports success: on `end` the
input file is deleted and the promise resolves to the generated output path; on `error` the
promise rejects with the engine error unchanged and nothing is deleted. -/
theorem C15_source_deleted_iff_engine_success (path : PathModule) (mathPI : JSNum)
    (inputFilePath : String) (hasHair hasSubscribeOverlay : Bool) (videoDuration : JSNum) :
    ((applyOverlaysOnVideoRun path mathPI inputFilePath hasHair hasSubscribeOverlay
        (.metadata videoDuration) .ended).unlinked = [inputFilePath] ∧
     (applyOverlaysOnVideoRun path mathPI inputFilePath hasHair hasSubscribeOverlay
        (.metadata videoDuration) .ended).settlement
      = .resolved (generateDynamicOutputPath path inputFilePath "_final")) ∧
    (∀ err : JSError,
      (applyOverlaysOnVideoRun path mathPI inputFilePath hasHair hasSubscribeOverlay
          (.metadata videoDuration) (.failed err)).unlinked = [] ∧
      (applyOverlaysOnVideoRun path mathPI inputFilePath hasHair hasSubscribeOverlay
          (.metadata videoDuration) (.failed err)).settlement = .rejected err) ∧
    (∀ (probe : ProbeResult) (engine : EngineEvent),
      inputFilePath ∈ (applyOverlaysOnVideoRun path mathPI inputFilePath hasHair
          hasSubscribeOverlay probe engine).unlinked
        ↔ (∃ d, probe = .metadata d) ∧ engine = .ended) := by
  refine ⟨⟨rfl, rfl⟩, fun _ => ⟨rfl, rfl⟩, ?_⟩
  intro probe engine
  cases probe <;> cases engine <;> simp [applyOverlaysOnVideoRun]

/-- C16, evaluation at the failing inputs: for a source of 101 seconds the sped-up stream
`v1` ends at 100, so the GIF composite of `applyOverlaysOnVideo` is active on `[98, 100]`
(2 seconds, not 3) and that of `t.js` on `[97, 100]` (3 seconds, not 4); for a source of 404
seconds (505 in `t.js`) the window starts after the stream has ended and the GIF composite
is never active. -/
theorem C16_gif_window_shorter_than_declared :
    overlayStartTime (.fin 101) = .fin 98 ∧
    (JSNum.fin 101).mul videoSetptsFactor = .fin 100 ∧
    (∀ t : ℚ, gifActiveAt 101 t ↔ 98 ≤ t ∧ t ≤ 100) ∧
    (∀ t : ℚ, ¬ gifActiveAt 404 t) ∧
    tOverlayStartTime (.fin 101) = .fin 97 ∧
    (JSNum.fin 101).mul tVideoSetptsFactor = .fin 100 ∧
    (∀ t : ℚ, tGifActiveAt 101 t ↔ 97 ≤ t ∧ t ≤ 100) ∧
    (∀ t : ℚ, ¬ tGifActiveAt 505 t) := by
  have hs : overlayStartTime (.fin 101) = .fin 98 := by
    simp [overlayStartTime, GIF_OVERLAY_DURATION, JSNum.gt, JSNum.sub]; norm_num
  have he : (JSNum.fin 101).mul videoSetptsFactor = .fin 100 := by
    simp [videoSetptsFactor, SPEED_FACTOR, JSNum.div, JSNum.mul]; norm_num
  have hs2 : overlayStartTime (.fin 404) = .fin 401 := by
    simp [overlayStartTime, GIF_OVERLAY_DURATION, JSNum.gt, JSNum.sub]; norm_num
  have he2 : (JSNum.fin 404).mul videoSetptsFactor = .fin 400 := by
    simp [videoSetptsFactor, SPEED_FACTOR, JSNum.div, JSNum.mul]; norm_num
  have ts : tOverlayStartTime (.fin 101) = .fin 97 := by
    simp [tOverlayStartTime, JSNum.gt, JSNum.sub]; norm_num
  have te : (JSNum.fin 101).mul tVideoSetptsFactor = .fin 100 := by
    simp [tVideoSetptsFactor, JSNum.div, JSNum.mul]; norm_num
  have ts2 : tOverlayStartTime (.fin 505) = .fin 501 := by
    simp [tOverlayStartTime, JSNum.gt, JSNum.sub]; norm_num
  have te2 : (JSNum.fin 505).mul tVideoSetptsFactor = .fin 500 := by
    simp [tVideoSetptsFactor, JSNum.div, JSNum.mul]; norm_num
  refine ⟨hs, he, ?_, ?_, ts, te, ?_, ?_⟩
  · intro t
    simp only [gifActiveAt, hs, he]
    constructor
    · rintro ⟨⟨-, h2⟩, h3, -⟩; exact ⟨h3, h2⟩
    · rintro ⟨h1, h2⟩; exact ⟨⟨by linarith, h2⟩, h1, by linarith⟩
  · intro t
    simp only [gifActiveAt, hs2, he2]
    rintro ⟨⟨-, h2⟩, h3, -⟩
    linarith
  · intro t
    simp only [tGifActiveAt, ts, te]
    constructor
    · rintro ⟨⟨-, h2⟩, h3, -⟩; exact ⟨h3, h2⟩
    · rintro ⟨h1, h2⟩; exact ⟨⟨by linarith, h2⟩, h1, by linarith⟩
  · intro t
    simp only [tGifActiveAt, ts2, te2]
    rintro ⟨⟨-, h2⟩, h3, -⟩
    linarith

/-- C17, counterexample: `overlayUpscaledImage` called without a size scales the overlay to
`480:480`, not `360:360`. -/
theorem C17_counterexample_upscaled_480 :
    overlayUpscaledImage none
      = [{ filter := "scale", options := some (.str [.lit "480:480"]),
           inputs := some (.one "1:v"), outputs := some "scaledOverlay" },
         { filter := "overlay"
           options := some (.obj
             [("x", [.lit "(main_w-overlay_w)/2"]), ("y", [.lit "(main_h-overlay_h)/2"])])
           inputs := some (.many ["0:v", "scaledOverlay"]), outputs := some "v" }] ∧
    (∃ f ∈ overlayUpscaledImage none, f.filter = "scale" ∧
      f.options ≠ some (.str [.lit "360:360"])) := by
  refine ⟨rfl, ⟨_, List.mem_cons_self _ _, rfl, ?_⟩⟩
  decide

/-- C17, amended: for every angle in degrees (and every finite value of `Math.PI`) the angle
passed to the rotate filter is `degrees * pi / 180`, in `overlayRotatedAndScaledImage`,
`processVideoWithOverlays` and `processVideoWithDynamicGifOverlay`; for 90 degrees it is
`pi / 2`, and for the constant `HAIR_ANGLE_ROTATE = 45` of `applyOverlaysOnVideo` and its two
JavaScript variants it is `pi / 4`. In every filter list that has a rotate filter each scale
filter has target `360:360`; `overlayUpscaledImage`, which has no rotate filter, scales to
its parameter `upscaledSize`, `480:480` by default. -/
theorem C17_rotation_angle_in_radians (mathPI angleDegrees : ℚ) (inputFilePath : String)
    (hasHair hasSubscribeOverlay : Bool) (videoDuration : JSNum) :
    degreesToRadians (.fin mathPI) (.fin angleDegrees) = .fin (angleDegrees * mathPI / 180) ∧
    degreesToRadians (.fin mathPI) (.fin 90) = .fin (mathPI / 2) ∧
    HAIR_ANGLE_ROTATE = .fin 45 ∧
    angleRadians (.fin mathPI) = .fin (45 * mathPI / 180) ∧
    angleRadians (.fin mathPI) = .fin (mathPI / 4) ∧
    overlayRotatedAndScaledImage (.fin mathPI) (.fin angleDegrees)
      = [{ filter := "scale", options := some (.str [.lit "360:360"]),
           inputs := some (.one "1:v"), outputs := some "scaledOverlay" },
         { filter := "rotate"
           options := some (.str
             [.num (.fin (angleDegrees * mathPI / 180)), .lit ":fillcolor=none"])
           inputs := some (.one "scaledOverlay"), outputs := some "rotatedOverlay" },
         { filter := "overlay"
           options := some (.obj
             [("x", [.lit "(main_w-overlay_w)/2"]), ("y", [.lit "(main_h-overlay_h)/2"])])
           inputs := some (.many ["0:v", "rotatedOverlay"]), outputs := some "v" }] ∧
    ((processVideoWithOverlays (.fin mathPI) (.fin angleDegrees)).drop 3).take 2
      = [{ filter := "scale", options := some (.str [.lit "360:360"]),
           inputs := some (.one "2:v"), outputs := some "scaledOverlay" },
         { filter := "rotate"
           options := some (.str
             [.num (.fin (angleDegrees * mathPI / 180)), .lit ":fillcolor=none"])
           inputs := some (.one "scaledOverlay"), outputs := some "rotatedOverlay" }] ∧
    ((processVideoWithDynamicGifOverlay (.fin mathPI) (.fin angleDegrees) videoDuration).drop
        3).take 2
      = [{ filter := "scale", options := some (.str [.lit "360:360"]),
           inputs := some (.one "2:v"), outputs := some "scaledOverlay" },
         { filter := "rotate"
           options := some (.str
             [.num (.fin (angleDegrees * mathPI / 180)), .lit ":fillcolor=none"])
           inputs := some (.one "scaledOverlay"), outputs := some "rotatedOverlay" }] ∧
    (∃ hairInputIndex : Nat,
      ((applyOverlaysOnVideo (.fin mathPI) inputFilePath true hasSubscribeOverlay
          videoDuration).filters.drop
        ((applyOverlaysOnVideo (.fin mathPI) inputFilePath true hasSubscribeOverlay
          videoDuration).filters.length - 3)).take 2
        = [{ filter := "scale", options := some (.str [.lit "360:360"]),
             inputs := some (.one (toString hairInputIndex ++ ":v")),
             outputs := some "scaledOverlay" },
           { filter := "rotate"
             options := some (.str [.num (.fin (mathPI / 4)), .lit ":fillcolor=none"])
             inputs := some (.one "scaledOverlay"), outputs := some "rotatedOverlay" }]) ∧
    (∀ f ∈ makeVideoUnique (.fin mathPI) hasHair hasSubscribeOverlay videoDuration,
      f.filter = "rotate" →
        f.options = some (.str [.num (.fin (mathPI / 4)), .lit ":fillcolor=none"])) ∧
    ((∀ f ∈ overlayRotatedAndScaledImage (.fin mathPI) (.fin angleDegrees),
        f.filter = "scale" → f.options = some (.str [.lit "360:360"])) ∧
     (∀ f ∈ processVideoWithOverlays (.fin mathPI) (.fin angleDegrees),
        f.filter = "scale" → f.options = some (.str [.lit "360:360"])) ∧
     (∀ f ∈ processVideoWithDynamicGifOverlay (.fin mathPI) (.fin angleDegrees) videoDuration,
        f.filter = "scale" → f.options = some (.str [.lit "360:360"])) ∧
     (∀ f ∈ (applyOverlaysOnVideo (.fin mathPI) inputFilePath hasHair hasSubscribeOverlay
          videoDuration).filters,
        f.filter = "scale" → f.options = some (.str [.lit "360:360"])) ∧
     (∀ f ∈ makeVideoUnique (.fin mathPI) hasHair hasSubscribeOverlay videoDuration,
        f.filter = "scale" → f.options = some (.str [.lit "360:360"])) ∧
     (∀ f ∈ makeVideoUniqueGPU (.fin mathPI) hasHair hasSubscribeOverlay videoDuration,
        f.filter = "scale" → f.options = some (.str [.lit "360:360"]))) ∧
    (∀ upscaledSize : Option String,
      (∀ f ∈ overlayUpscaledImage upscaledSize, f.filter ≠ "rotate") ∧
      (overlayUpscaledImage upscaledSize)[0]?
        = some { filter := "scale"
                 options := some (.str [.lit (upscaledSize.getD "480:480")])
                 inputs := some (.one "1:v"), outputs := some "scaledOverlay" }) := by
  have hdeg : ∀ a : ℚ, ((JSNum.fin a).mul (.fin mathPI)).div (.fin 180)
      = .fin (a * mathPI / 180) := by
    intro a
    simp [JSNum.mul, JSNum.div]
  have h45 : angleRadians (.fin mathPI) = .fin (mathPI / 4) := by
    simp [angleRadians, HAIR_ANGLE_ROTATE, JSNum.mul, JSNum.div]; ring
  have h45b : (45 : ℚ) * mathPI / 180 = mathPI / 4 := by ring
  have h90 : (90 : ℚ) * mathPI / 180 = mathPI / 2 := by ring
  have hjs : ((HAIR_ANGLE_ROTATE.mul (.fin mathPI)).div (.fin 180)) = .fin (mathPI / 4) := h45
  refine ⟨hdeg angleDegrees, ?_, rfl, ?_, h45, ?_, ?_, ?_, ?_, ?_, ⟨?_, ?_, ?_, ?_, ?_, ?_⟩, ?_⟩
  · rw [← h90]; exact hdeg 90
  · rw [h45b]; exact h45
  · simp [overlayRotatedAndScaledImage, hdeg]
  · simp [processVideoWithOverlays, hdeg]
  · simp [processVideoWithDynamicGifOverlay, hdeg]
  · cases hasSubscribeOverlay
    · refine ⟨1, ?_⟩
      show [hairScaleFilter 1, hairRotateFilter (.fin mathPI)] = _
      simp [hairScaleFilter, hairRotateFilter, h45]
    · refine ⟨2, ?_⟩
      show [hairScaleFilter 2, hairRotateFilter (.fin mathPI)] = _
      simp [hairScaleFilter, hairRotateFilter, h45]
  · intro f hf hrot
    cases hasHair <;> cases hasSubscribeOverlay <;>
      simp [makeVideoUnique, jsIndex] at hf <;>
      (try rcases hf with rfl | rfl | rfl | rfl | rfl | rfl | rfl) <;>
      simp_all
  · exact forall_mem_of_all (by rfl)
  · exact forall_mem_of_all (by rfl)
  · exact forall_mem_of_all (by rfl)
  · cases hasHair <;> cases hasSubscribeOverlay <;> exact forall_mem_of_all (by rfl)
  · cases hasHair <;> cases hasSubscribeOverlay <;> exact forall_mem_of_all (by rfl)
  · cases hasHair <;> cases hasSubscribeOverlay <;> exact forall_mem_of_all (by rfl)
  · intro upscaledSize
    exact ⟨forall_mem_of_all (by rfl), rfl⟩

/-- C17 amended, for the rotate filter of `makeVideoUnique.js` with both overlays: the angle
is `pi / 4`. -/
theorem C17_rotation_angle_in_radians_witness :
    (hairRotateFilter (.fin (355 / 113))).options
      = some (.str [.num (.fin ((355 / 113 : ℚ) / 4)), .lit ":fillcolor=none"]) := by
  have h := (C17_rotation_angle_in_radians (355 / 113) 90 "in.mp4" true true
    (.fin 10)).2.2.2.2.2.2.2.2.2.1
    { filter := "rotate"
      options := some (.str
        [.num ((HAIR_ANGLE_ROTATE.mul (.fin (355 / 113))).div (.fin 180)),
          .lit ":fillcolor=none"])
      inputs := some (.one "scaledOverlay"), outputs := some "rotatedOverlay" }
    (by simp [makeVideoUnique]) rfl
  exact h

/-- C18: two runs with the same `hasHair`, `hasSubscribeOverlay` and probed duration build
the same filter list and the same index assignment, whatever the input file paths. -/
theorem C18_build_deterministic (mathPI : JSNum) (path1 path2 : String)
    (hasHair1 hasHair2 hasSub1 hasSub2 : Bool) (duration1 duration2 : JSNum)
    (hHair : hasHair1 = hasHair2) (hSub : hasSub1 = hasSub2) (hDur : duration1 = duration2) :
    (applyOverlaysOnVideo mathPI path1 hasHair1 hasSub1 duration1).filters
      = (applyOverlaysOnVideo mathPI path2 hasHair2 hasSub2 duration2).filters ∧
    (applyOverlaysOnVideo mathPI path1 hasHair1 hasSub1 duration1).gifInputIndex
      = (applyOverlaysOnVideo mathPI path2 hasHair2 hasSub2 duration2).gifInputIndex ∧
    (applyOverlaysOnVideo mathPI path1 hasHair1 hasSub1 duration1).hairInputIndex
      = (applyOverlaysOnVideo mathPI path2 hasHair2 hasSub2 duration2).hairInputIndex ∧
    (applyOverlaysOnVideo mathPI path1 hasHair1 hasSub1 duration1).inputCount
      = (applyOverlaysOnVideo mathPI path2 hasHair2 hasSub2 duration2).inputCount := by
  subst hHair hSub hDur
  cases hasHair1 <;> cases hasSub1 <;> exact ⟨rfl, rfl, rfl, rfl⟩

/-- C18 at both flags set and duration 10, for two different input files. -/
theorem C18_build_deterministic_witness :
    (applyOverlaysOnVideo (.fin 3) "a.mp4" true true (.fin 10)).filters
      = (applyOverlaysOnVideo (.fin 3) "b.mp4" true true (.fin 10)).filters ∧
    (applyOverlaysOnVideo (.fin 3) "a.mp4" true true (.fin 10)).gifInputIndex
      = (applyOverlaysOnVideo (.fin 3) "b.mp4" true true (.fin 10)).gifInputIndex ∧
    (applyOverlaysOnVideo (.fin 3) "a.mp4" true true (.fin 10)).hairInputIndex
      = (applyOverlaysOnVideo (.fin 3) "b.mp4" true true (.fin 10)).hairInputIndex ∧
    (applyOverlaysOnVideo (.fin 3) "a.mp4" true true (.fin 10)).inputCount
      = (applyOverlaysOnVideo (.fin 3) "b.mp4" true true (.fin 10)).inputCount :=
  C18_build_deterministic (.fin 3) "a.mp4" "b.mp4" true true true true (.fin 10) (.fin 10)
    rfl rfl rfl

/-- C19, evaluation at the failing input: for `videos/my.video.mp4` and `_cleared` the code
returns `videos/my_cleared.mp4`, while the directory joined with the file name without its
extension, `_cleared` and `.mp4` is `videos/my.video_cleared.mp4`; a second input
`videos/my.clip.mp4` is sent to the same output. For the file name of `main.ts`, which has a
single `.`, the two agree. -/
theorem C19_output_path_drops_text_after_first_dot :
    generateDynamicOutputPath posixPath "videos/my.video.mp4" "_cleared"
      = "videos/my_cleared.mp4" ∧
    documentedOutputPath posixPath "videos/my.video.mp4" "_cleared"
      = "videos/my.video_cleared.mp4" ∧
    generateDynamicOutputPath posixPath "videos/my.video.mp4" "_cleared"
      ≠ documentedOutputPath posixPath "videos/my.video.mp4" "_cleared" ∧
    generateDynamicOutputPath posixPath "videos/my.clip.mp4" "_cleared"
      = generateDynamicOutputPath posixPath "videos/my.video.mp4" "_cleared" ∧
    generateDynamicOutputPath posixPath "videos/Y-2w8GnIqLc.mp4" "_cleared"
      = documentedOutputPath posixPath "videos/Y-2w8GnIqLc.mp4" "_cleared" := by
  decide

/-- C20: for every flag combination and duration the filter lists of `makeVideoUnique.js` and
of `else/applyOverlaysOnVideoGPU.js` serialise to the same clauses, in the same order, as the
list of `applyOverlaysOnVideo.ts`; as values the lists differ only in the second filter, whose
`options` is the number `SPEED_FACTOR` instead of the string `String(SPEED_FACTOR)`. -/
theorem C20_js_variants_build_same_filters (mathPI : JSNum) (inputFilePath : String)
    (hasHair hasSubscribeOverlay : Bool) (videoDuration : JSNum) :
    (makeVideoUnique mathPI hasHair hasSubscribeOverlay videoDuration).map serialiseFilter
      = (applyOverlaysOnVideo mathPI inputFilePath hasHair hasSubscribeOverlay
          videoDuration).filters.map serialiseFilter ∧
    (makeVideoUniqueGPU mathPI hasHair hasSubscribeOverlay videoDuration).map serialiseFilter
      = (applyOverlaysOnVideo mathPI inputFilePath hasHair hasSubscribeOverlay
          videoDuration).filters.map serialiseFilter ∧
    makeVideoUnique mathPI hasHair hasSubscribeOverlay videoDuration
      = (applyOverlaysOnVideo mathPI inputFilePath hasHair hasSubscribeOverlay
          videoDuration).filters.set 1
          { filter := "atempo", options := some (.num SPEED_FACTOR),
            inputs := some (.one "0:a"), outputs := some "a" } ∧
    makeVideoUniqueGPU mathPI hasHair hasSubscribeOverlay videoDuration
      = makeVideoUnique mathPI hasHair hasSubscribeOverlay videoDuration := by
  cases hasHair <;> cases hasSubscribeOverlay <;> exact ⟨rfl, rfl, rfl, rfl⟩

/-- C21: for every flag combination the inputs attached to the command sit where the filter
list refers to them: the command has `inputCount` inputs, the main video first; the input at
`gifInputIndex` is the GIF and the delay filter reads `<gifInputIndex>:v`; the input at
`hairInputIndex` is the PNG and the scale filter reads `<hairInputIndex>:v`; and every raw
input reference of the list has an index below the number of attached inputs. -/
theorem C21_attached_inputs_match_references (mathPI : JSNum) (inputFilePath : String)
    (hasHair hasSubscribeOverlay : Bool) (videoDuration : JSNum) :
    (applyOverlaysOnVideo mathPI inputFilePath hasHair hasSubscribeOverlay
        videoDuration).command.length = (applyOverlaysOnVideo mathPI inputFilePath hasHair hasSubscribeOverlay
        videoDuration).inputCount ∧
    (applyOverlaysOnVideo mathPI inputFilePath hasHair hasSubscribeOverlay
        videoDuration).command[0]? = some { path := inputFilePath, inputOptions := [] } ∧
    (applyOverlaysOnVideo mathPI inputFilePath hasHair hasSubscribeOverlay
        videoDuration).gifInputIndex.isSome = hasSubscribeOverlay ∧
    (applyOverlaysOnVideo mathPI inputFilePath hasHair hasSubscribeOverlay
        videoDuration).hairInputIndex.isSome = hasHair ∧
    (∀ k, (applyOverlaysOnVideo mathPI inputFilePath hasHair hasSubscribeOverlay
        videoDuration).gifInputIndex = some k →
      (applyOverlaysOnVideo mathPI inputFilePath hasHair hasSubscribeOverlay
          videoDuration).command[k]? = some { path := GIF_PATH, inputOptions := ["-ignore_loop", "0"] } ∧
      ∃ g ∈ (applyOverlaysOnVideo mathPI inputFilePath hasHair hasSubscribeOverlay
          videoDuration).filters, g.filter = "setpts" ∧ g.outputs = some "delayedGif" ∧
        g.inputs = some (.one (toString k ++ ":v"))) ∧
    (∀ k, (applyOverlaysOnVideo mathPI inputFilePath hasHair hasSubscribeOverlay
        videoDuration).hairInputIndex = some k →
      (applyOverlaysOnVideo mathPI inputFilePath hasHair hasSubscribeOverlay
          videoDuration).command[k]? = some { path := HAIR_PATH, inputOptions := [] } ∧
      ∃ g ∈ (applyOverlaysOnVideo mathPI inputFilePath hasHair hasSubscribeOverlay
          videoDuration).filters, g.filter = "scale" ∧
        g.inputs = some (.one (toString k ++ ":v"))) ∧
    (∀ g ∈ (applyOverlaysOnVideo mathPI inputFilePath hasHair hasSubscribeOverlay
        videoDuration).filters, ∀ l ∈ g.inputLabels, ∀ n, rawIndex? l = some n →
      n < (applyOverlaysOnVideo mathPI inputFilePath hasHair hasSubscribeOverlay
          videoDuration).command.length) ∧
    (∀ g ∈ (applyOverlaysOnVideo mathPI inputFilePath hasHair hasSubscribeOverlay
        videoDuration).filters, ∀ l ∈ g.inputLabels,
      (∃ n, n < (applyOverlaysOnVideo mathPI inputFilePath hasHair hasSubscribeOverlay
          videoDuration).command.length ∧ (l = toString n ++ ":v" ∨ l = toString n ++ ":a")) ∨
        ∃ g2 ∈ (applyOverlaysOnVideo mathPI inputFilePath hasHair hasSubscribeOverlay
            videoDuration).filters, g2.outputs = some l) := by
  have hraw : ∀ g ∈ (applyOverlaysOnVideo mathPI inputFilePath hasHair hasSubscribeOverlay
      videoDuration).filters,
      g.inputLabels.all (fun l => (rawIndex? l).all (fun n => decide (n < (applyOverlaysOnVideo mathPI inputFilePath hasHair hasSubscribeOverlay
          videoDuration).command.length)))
        = true := by
    cases hasHair <;> cases hasSubscribeOverlay <;> exact forall_mem_of_all (by rfl)
  refine ⟨?_, ?_, ?_, ?_, ?_, ?_, ?_, ?_⟩
  · cases hasHair <;> cases hasSubscribeOverlay <;> rfl
  · cases hasHair <;> cases hasSubscribeOverlay <;> rfl
  · cases hasHair <;> cases hasSubscribeOverlay <;> rfl
  · cases hasHair <;> cases hasSubscribeOverlay <;> rfl
  · cases hasHair <;> cases hasSubscribeOverlay <;>
      exact forall_of_option_all _ (by rfl)
  · cases hasHair <;> cases hasSubscribeOverlay <;>
      exact forall_of_option_all _ (by rfl)
  · intro g hg l hl n hn
    have h1 := (List.all_eq_true.mp (hraw g hg)) l hl
    rw [hn] at h1
    simpa using h1
  · cases hasHair <;> cases hasSubscribeOverlay <;> exact forall_mem_of_all (by rfl)

/-- C21 with both overlays, duration 10: the GIF is attached at position 1 and the PNG at
position 2, and these are the indices the delay and scale filters read. -/
theorem C21_attached_inputs_match_references_witness :
    ((applyOverlaysOnVideo (.fin 3) "in.mp4" true true (.fin 10)).command[1]?
        = some { path := GIF_PATH, inputOptions := ["-ignore_loop", "0"] } ∧
      ∃ g ∈ (applyOverlaysOnVideo (.fin 3) "in.mp4" true true (.fin 10)).filters,
        g.filter = "setpts" ∧ g.outputs = some "delayedGif" ∧
          g.inputs = some (.one (toString 1 ++ ":v"))) ∧
    ((applyOverlaysOnVideo (.fin 3) "in.mp4" true true (.fin 10)).command[2]?
        = some { path := HAIR_PATH, inputOptions := [] } ∧
      ∃ g ∈ (applyOverlaysOnVideo (.fin 3) "in.mp4" true true (.fin 10)).filters,
        g.filter = "scale" ∧ g.inputs = some (.one (toString 2 ++ ":v"))) :=
  ⟨(C21_attached_inputs_match_references (.fin 3) "in.mp4" true true (.fin 10)).2.2.2.2.1 1 rfl,
   (C21_attached_inputs_match_references (.fin 3) "in.mp4" true true (.fin 10)).2.2.2.2.2.1 2
     rfl⟩

/-- C22: for every flag combination and duration the output labels of the filter list are
pairwise distinct; every output label other than `v` and `a` is used as an input exactly
once, by a filter at a larger position, and by no filter at a smaller or equal position; the
labels `v` and `a` are never used as an input. -/
theorem C22_labels_distinct_and_consumed_once (mathPI : JSNum) (inputFilePath : String)
    (hasHair hasSubscribeOverlay : Bool) (videoDuration : JSNum) :
    ((applyOverlaysOnVideo mathPI inputFilePath hasHair hasSubscribeOverlay
        videoDuration).filters.filterMap (fun f => f.outputs)).Nodup ∧
    (∀ (i : Nat) (f : FilterComplexOption) (l : String),
      (applyOverlaysOnVideo mathPI inputFilePath hasHair hasSubscribeOverlay
          videoDuration).filters[i]? = some f → f.outputs = some l → l ≠ "v" → l ≠ "a" →
        timesConsumed (applyOverlaysOnVideo mathPI inputFilePath hasHair hasSubscribeOverlay
            videoDuration).filters l = 1 ∧
        (∃ (j : Nat) (g : FilterComplexOption),
          i < j ∧ (applyOverlaysOnVideo mathPI inputFilePath hasHair hasSubscribeOverlay
              videoDuration).filters[j]? = some g ∧ l ∈ g.inputLabels) ∧
        (∀ (j : Nat) (g : FilterComplexOption),
          (applyOverlaysOnVideo mathPI inputFilePath hasHair hasSubscribeOverlay
              videoDuration).filters[j]? = some g → l ∈ g.inputLabels → i < j)) ∧
    timesConsumed (applyOverlaysOnVideo mathPI inputFilePath hasHair hasSubscribeOverlay
        videoDuration).filters "v" = 0 ∧
    timesConsumed (applyOverlaysOnVideo mathPI inputFilePath hasHair hasSubscribeOverlay
        videoDuration).filters "a" = 0 ∧
    (∀ g ∈ (applyOverlaysOnVideo mathPI inputFilePath hasHair hasSubscribeOverlay
        videoDuration).filters, "v" ∉ g.inputLabels ∧ "a" ∉ g.inputLabels) := by
  refine ⟨?_, ?_, ?_, ?_, ?_⟩
  · cases hasHair <;> cases hasSubscribeOverlay <;> exact of_decide_eq_true (by rfl)
  · intro i f l hf hl hv ha
    have key := forall_of_enum_all
      (fun (i : Nat) (f : FilterComplexOption) =>
        ∀ l ∈ f.outputs.toList, l ≠ "v" → l ≠ "a" →
          timesConsumed (applyOverlaysOnVideo mathPI inputFilePath hasHair hasSubscribeOverlay
              videoDuration).filters l = 1 ∧
          ((applyOverlaysOnVideo mathPI inputFilePath hasHair hasSubscribeOverlay
              videoDuration).filters.enum.any (fun b => decide (i < b.1) && decide (l ∈ b.2.inputLabels))
            = true) ∧
          ((applyOverlaysOnVideo mathPI inputFilePath hasHair hasSubscribeOverlay
              videoDuration).filters.enum.all (fun b => decide (l ∈ b.2.inputLabels → i < b.1)) = true))
      (by cases hasHair <;> cases hasSubscribeOverlay <;> rfl) i f hf l
      (by simp [hl]) hv ha
    obtain ⟨h1, h2, h3⟩ := key
    refine ⟨h1, ?_, ?_⟩
    · obtain ⟨⟨j, g⟩, hmem, hjg⟩ := List.any_eq_true.mp h2
      have hg := List.mk_mem_enum_iff_getElem?.mp hmem
      simp only [Bool.and_eq_true, decide_eq_true_eq] at hjg
      exact ⟨j, g, hjg.1, hg, hjg.2⟩
    · intro j g hg hlg
      have hmem : (j, g) ∈ (applyOverlaysOnVideo mathPI inputFilePath hasHair hasSubscribeOverlay
          videoDuration).filters.enum := List.mk_mem_enum_iff_getElem?.mpr hg
      have := (List.all_eq_true.mp h3) _ hmem
      simp only [decide_eq_true_eq] at this
      exact this hlg
  · cases hasHair <;> cases hasSubscribeOverlay <;> rfl
  · cases hasHair <;> cases hasSubscribeOverlay <;> rfl
  · cases hasHair <;> cases hasSubscribeOverlay <;> exact forall_mem_of_all (by rfl)

/-- C22 with both overlays, duration 10: the label `v2` produced at position 3 is used exactly
once, by the filter at position 6. -/
theorem C22_labels_distinct_and_consumed_once_witness :
    timesConsumed (applyOverlaysOnVideo (.fin 3) "in.mp4" true true (.fin 10)).filters "v2" = 1 ∧
    (∃ (j : Nat) (g : FilterComplexOption),
      3 < j ∧ (applyOverlaysOnVideo (.fin 3) "in.mp4" true true (.fin 10)).filters[j]? = some g ∧
        "v2" ∈ g.inputLabels) ∧
    (∀ (j : Nat) (g : FilterComplexOption),
      (applyOverlaysOnVideo (.fin 3) "in.mp4" true true (.fin 10)).filters[j]? = some g →
        "v2" ∈ g.inputLabels → 3 < j) :=
  (C22_labels_distinct_and_consumed_once (.fin 3) "in.mp4" true true (.fin 10)).2.1 3
    (gifOverlayFilter (.fin 10)) "v2" rfl rfl (by decide) (by decide)

/-- C23: for every input path and every non-empty added string that does not begin with `.`,
the produced file name is the text of the input file name before its first `.` (the first
element of `split('.')`), followed by the added string and `.mp4`, and it differs from the
input file name; the output path differs from the input path whenever the file name of the
joined path is the joined name, which holds for the POSIX `path` functions, so with
`_cleared` and `_final` the saved output is never the file deleted after success. -/
theorem C23_output_never_the_deleted_input (path : PathModule)
    (inputFilePath addedString : String) (hne : addedString ≠ "")
    (hdot : addedString.toList.head? ≠ some '.') :
    generateDynamicOutputPath path inputFilePath addedString
      = path.join (path.dirname inputFilePath)
          (splitDotHead (path.basename inputFilePath) ++ addedString ++ ".mp4") ∧
    (jsSplit '.' (path.basename inputFilePath).toList).head?
      = some (splitDotHead (path.basename inputFilePath)).toList ∧
    (∃ rest : String,
      path.basename inputFilePath = splitDotHead (path.basename inputFilePath) ++ rest ∧
      '.' ∉ (splitDotHead (path.basename inputFilePath)).toList ∧
      (rest = "" ∨ rest.toList.head? = some '.')) ∧
    splitDotHead (path.basename inputFilePath) ++ addedString ++ ".mp4"
      ≠ path.basename inputFilePath ∧
    (path.basename (generateDynamicOutputPath path inputFilePath addedString)
        = splitDotHead (path.basename inputFilePath) ++ addedString ++ ".mp4" →
      generateDynamicOutputPath path inputFilePath addedString ≠ inputFilePath) ∧
    generateDynamicOutputPath posixPath inputFilePath "_cleared" ≠ inputFilePath ∧
    generateDynamicOutputPath posixPath inputFilePath "_final" ≠ inputFilePath ∧
    (∀ (engine : EngineEvent) (out : String),
      (randomizeVideoMetadataRun posixPath inputFilePath engine).saved = some out →
        out ∉ (randomizeVideoMetadataRun posixPath inputFilePath engine).unlinked) ∧
    (∀ (mathPI : JSNum) (hasHair hasSubscribeOverlay : Bool) (probe : ProbeResult)
        (engine : EngineEvent) (out : String),
      (applyOverlaysOnVideoRun posixPath mathPI inputFilePath hasHair hasSubscribeOverlay
          probe engine).saved = some out →
        out ∉ (applyOverlaysOnVideoRun posixPath mathPI inputFilePath hasHair
          hasSubscribeOverlay probe engine).unlinked) := by
  have hposix : ∀ (p a : String), a ≠ "" → a.toList.head? ≠ some '.' →
      (∀ y ∈ a.data, (y != '/') = true) → generateDynamicOutputPath posixPath p a ≠ p := by
    intro p a h1 h2 h3 heq
    have hb := posixBasename_output p a h3
    rw [heq] at hb
    exact outputName_ne (posixBasename p) a h1 h2 hb.symm
  have hcleared : generateDynamicOutputPath posixPath inputFilePath "_cleared"
      ≠ inputFilePath :=
    hposix inputFilePath "_cleared" (by decide) (by decide) (by decide)
  have hfinal : generateDynamicOutputPath posixPath inputFilePath "_final" ≠ inputFilePath :=
    hposix inputFilePath "_final" (by decide) (by decide) (by decide)
  refine ⟨rfl, ?_, ?_, outputName_ne _ _ hne hdot, ?_, hcleared, hfinal, ?_, ?_⟩
  · exact jsSplit_head '.' _
  · refine ⟨String.mk ((path.basename inputFilePath).data.dropWhile (fun c => c != '.')),
      ?_, ?_, ?_⟩
    · apply String.ext
      simp only [String.data_append, splitDotHead, String.toList]
      exact (List.takeWhile_append_dropWhile _ _).symm
    · intro hmem
      have := mem_takeWhile_sat (fun c => c != '.') _ '.' hmem
      simp at this
    · cases hdw : (path.basename inputFilePath).data.dropWhile (fun c => c != '.') with
      | nil => exact Or.inl rfl
      | cons x xs =>
        right
        have hx := dropWhile_head_unsat (fun c => c != '.') _ x xs hdw
        have hx2 : x = '.' := by simpa using hx
        simp [String.toList, hx2]
  · intro hbase heq
    rw [heq] at hbase
    exact outputName_ne _ _ hne hdot hbase.symm
  · intro engine out hsaved hmem
    cases engine with
    | ended =>
      simp only [randomizeVideoMetadataRun, Option.some.injEq, List.mem_singleton] at hsaved hmem
      exact hcleared (hsaved.trans hmem)
    | failed err => simp [randomizeVideoMetadataRun] at hmem
  · intro mathPI hasHair hasSubscribeOverlay probe engine out hsaved hmem
    cases probe with
    | error err => simp [applyOverlaysOnVideoRun] at hmem
    | metadata d =>
      cases engine with
      | ended =>
        simp only [applyOverlaysOnVideoRun, Option.some.injEq, List.mem_singleton]
          at hsaved hmem
        exact hfinal (hsaved.trans hmem)
      | failed err => simp [applyOverlaysOnVideoRun] at hmem

/-- C23 for `videos/in.mp4` and `_final`: the output `videos/in_final.mp4` is not the input. -/
theorem C23_output_never_the_deleted_input_witness :
    generateDynamicOutputPath posixPath "videos/in.mp4" "_final" = "videos/in_final.mp4" ∧
    generateDynamicOutputPath posixPath "videos/in.mp4" "_final" ≠ "videos/in.mp4" :=
  ⟨by decide,
   (C23_output_never_the_deleted_input posixPath "videos/in.mp4" "_final" (by decide)
      (by decide)).2.2.2.2.1 (by decide)⟩

/-- C24, counterexample: at the largest valid base time, with the default bound 60 and the
draw 1/2 (all products exact in doubles, offset 30000), the returned date is invalid: there
is no returned time to subtract the base time from. -/
theorem C24_counterexample_invalid_date :
    |(8640000000000000 : ℤ)| ≤ maxTimeValue ∧ IsDouble 60 ∧ (0 : ℚ) < 60 ∧
    IsDouble (1 / 2) ∧ (0 : ℚ) ≤ 1 / 2 ∧ (1 / 2 : ℚ) < 1 ∧
    randomTimeOffset (some 8640000000000000) (some (.fin 60)) (.fin (1 / 2)) = none ∧
    randomTimeOffset (some 8640000000000000) none (.fin (1 / 2)) = none := by
  have hd60 : IsDouble 60 := ⟨60, 0, by norm_num, by norm_num, by norm_num, by norm_num⟩
  have hdr : IsDouble (1 / 2) := ⟨1, -1, by norm_num, by norm_num, by norm_num, by norm_num⟩
  have hd30 : IsDouble 30 := ⟨30, 0, by norm_num, by norm_num, by norm_num, by norm_num⟩
  have hd30000 : IsDouble 30000 :=
    ⟨30000, 0, by norm_num, by norm_num, by norm_num, by norm_num⟩
  have hx : (1 / 2 : ℚ) * 60 = 30 := by norm_num
  have hq1 : roundQ ((1 / 2 : ℚ) * 60) = 30 := by rw [hx]; exact roundQ_of_isDouble hd30
  have h1 : roundDouble ((1 / 2 : ℚ) * 60) = .fin (roundQ ((1 / 2 : ℚ) * 60)) := by
    rw [hq1, hx]; exact roundDouble_of_isDouble hd30
  have hy : (30 : ℚ) * 1000 = 30000 := by norm_num
  have hq2 : roundQ (roundQ ((1 / 2 : ℚ) * 60) * 1000) = 30000 := by
    rw [hq1, hy]; exact roundQ_of_isDouble hd30000
  have h2 : roundDouble (roundQ ((1 / 2 : ℚ) * 60) * 1000)
      = .fin (roundQ (roundQ ((1 / 2 : ℚ) * 60) * 1000)) := by
    rw [hq2, hq1, hy]; exact roundDouble_of_isDouble hd30000
  have hres : randomTimeOffset (some 8640000000000000) (some (.fin 60)) (.fin (1 / 2))
      = none := by
    rw [randomTimeOffset_of_finite 8640000000000000 60 (1 / 2) h1 h2, hq2]
    have hfl : ⌊(30000 : ℚ)⌋ = 30000 := by
      rw [Int.floor_eq_iff]
      norm_num
    rw [hfl]
    exact newDate_roundDouble_gt (by unfold maxTimeValue; norm_num)
  refine ⟨by unfold maxTimeValue; norm_num, hd60, by norm_num, hdr, by norm_num, by norm_num,
    hres, hres⟩

/-- C24, amended: for every valid base time, every positive double `maxOffsetSeconds` and
every double draw `0 <= r < 1`: whenever the returned date is valid, the returned time minus
the base time is a whole number of milliseconds, the floor of the double product
`(r * maxOffsetSeconds) * 1000`, at least 0 and below `maxOffsetSeconds * 1000`; the returned
date is valid whenever the base time plus `maxOffsetSeconds * 1000` does not exceed the
largest time value; an omitted `maxOffsetSeconds` is 60; and the returned date is invalid
when `maxOffsetSeconds` is `Infinity` or the base date is itself invalid. -/
theorem C24_random_time_offset_bounds (baseTime : ℤ) (m r : ℚ)
    (hbase : |baseTime| ≤ maxTimeValue) (hm : IsDouble m) (hmpos : 0 < m)
    (hr : IsDouble r) (h0 : 0 ≤ r) (h1 : r < 1) :
    (∀ t : ℤ, randomTimeOffset (some baseTime) (some (.fin m)) (.fin r) = some t →
      t - baseTime = ⌊roundQ (roundQ (r * m) * 1000)⌋ ∧
      0 ≤ t - baseTime ∧ ((t - baseTime : ℤ) : ℚ) < m * 1000 ∧ baseTime ≤ t ∧
      |t| ≤ maxTimeValue) ∧
    ((baseTime : ℚ) + m * 1000 ≤ (maxTimeValue : ℚ) →
      ∃ t : ℤ, randomTimeOffset (some baseTime) (some (.fin m)) (.fin r) = some t) ∧
    randomTimeOffset (some baseTime) none (.fin r)
      = randomTimeOffset (some baseTime) (some (.fin 60)) (.fin r) ∧
    randomTimeOffset (some baseTime) (some .posInf) (.fin r) = none ∧
    randomTimeOffset none (some (.fin m)) (.fin r) = none := by
  obtain ⟨hnn, hlt⟩ := floor_two_round_lt hm hmpos hr h0 h1
  have hfirst := first_product_finite hm hmpos h0 h1
  have hoff0 : 0 ≤ ⌊roundQ (roundQ (r * m) * 1000)⌋ := Int.floor_nonneg.mpr hnn
  have hbase2 := abs_le.mp hbase
  -- the result when the sum stays within the range
  have hin : roundDouble (roundQ (r * m) * 1000) = .fin (roundQ (roundQ (r * m) * 1000)) →
      baseTime + ⌊roundQ (roundQ (r * m) * 1000)⌋ ≤ maxTimeValue →
      randomTimeOffset (some baseTime) (some (.fin m)) (.fin r)
        = some (baseTime + ⌊roundQ (roundQ (r * m) * 1000)⌋) := by
    intro hsecond hle
    rw [randomTimeOffset_of_finite baseTime m r hfirst hsecond]
    have habs : |baseTime + ⌊roundQ (roundQ (r * m) * 1000)⌋| ≤ maxTimeValue := by
      rw [abs_le]; constructor <;> omega
    have hd : IsDouble ((baseTime + ⌊roundQ (roundQ (r * m) * 1000)⌋ : ℤ) : ℚ) :=
      isDouble_intCast (lt_of_le_of_lt habs (by unfold maxTimeValue; norm_num))
    rw [roundDouble_of_isDouble hd]
    exact newDate_intCast habs
  refine ⟨?_, ?_, rfl, ?_, ?_⟩
  rotate_left 2
  · simp only [randomTimeOffset, Option.getD_some, JSNum.fmul, JSNum.mul, JSNum.signedInf]
    split_ifs <;> rfl
  · simp only [randomTimeOffset, Option.getD_some, getTime, JSNum.fadd]
    cases ((JSNum.fin r).fmul (.fin m)).fmul (.fin 1000) <;> rfl
  · intro t ht
    -- the second product is finite, or the date would be invalid
    have hsecond : roundDouble (roundQ (r * m) * 1000)
        = .fin (roundQ (roundQ (r * m) * 1000)) := by
      by_contra hcon
      have hover : roundDouble (roundQ (r * m) * 1000) = .posInf := by
        unfold roundDouble at hcon ⊢
        split_ifs with ha hb
        · rfl
        · exfalso
          have : (0 : ℚ) < (2 : ℚ) ^ (1024 : ℕ) := by positivity
          linarith
        · exfalso
          apply hcon
          rw [if_neg ha, if_neg hb]
      rw [randomTimeOffset_of_overflow baseTime m r hfirst hover] at ht
      exact Option.noConfusion ht
    have hle : baseTime + ⌊roundQ (roundQ (r * m) * 1000)⌋ ≤ maxTimeValue := by
      by_contra hcon
      push_neg at hcon
      rw [randomTimeOffset_of_finite baseTime m r hfirst hsecond,
        newDate_roundDouble_gt hcon] at ht
      exact Option.noConfusion ht
    rw [hin hsecond hle] at ht
    have ht2 : baseTime + ⌊roundQ (roundQ (r * m) * 1000)⌋ = t := Option.some.inj ht
    have hdiff : t - baseTime = ⌊roundQ (roundQ (r * m) * 1000)⌋ := by omega
    refine ⟨hdiff, by omega, ?_, by omega, ?_⟩
    · rw [hdiff]; exact hlt
    · rw [abs_le]; constructor <;> omega
  · intro hrange
    have hmax : (maxTimeValue : ℚ) = 8640000000000000 := by unfold maxTimeValue; norm_num
    have hbq : (-8640000000000000 : ℚ) ≤ (baseTime : ℚ) := by
      have : (-8640000000000000 : ℤ) ≤ baseTime := by
        have := hbase2.1
        unfold maxTimeValue at this
        omega
      exact_mod_cast this
    have hx2 : roundQ (roundQ (r * m) * 1000)
        < (⌊roundQ (roundQ (r * m) * 1000)⌋ : ℚ) + 1 := Int.lt_floor_add_one _
    have hsecond : roundDouble (roundQ (r * m) * 1000)
        = .fin (roundQ (roundQ (r * m) * 1000)) := by
      apply roundDouble_eq_fin
      · have : (17280000000000001 : ℚ) < (2 : ℚ) ^ (1024 : ℕ) := by
          have h64 : (17280000000000001 : ℚ) < (2 : ℚ) ^ (64 : ℕ) := by norm_num
          have h1024 : (2 : ℚ) ^ (64 : ℕ) ≤ (2 : ℚ) ^ (1024 : ℕ) :=
            pow_le_pow_right₀ (by norm_num) (by norm_num)
          linarith
        rw [hmax] at hrange
        linarith
      · have : (0 : ℚ) < (2 : ℚ) ^ (1024 : ℕ) := by positivity
        linarith
    have hle : baseTime + ⌊roundQ (roundQ (r * m) * 1000)⌋ ≤ maxTimeValue := by
      have : ((baseTime + ⌊roundQ (roundQ (r * m) * 1000)⌋ : ℤ) : ℚ) < (maxTimeValue : ℚ) := by
        push_cast
        linarith
      have := Int.cast_lt.mp this
      omega
    exact ⟨_, hin hsecond hle⟩

/-- C24 amended, at base time 1000, bound 60 and draw 1/2: the returned date is valid. -/
theorem C24_random_time_offset_bounds_witness :
    ∃ t : ℤ, randomTimeOffset (some 1000) (some (.fin 60)) (.fin (1 / 2)) = some t :=
  (C24_random_time_offset_bounds 1000 60 (1 / 2) (by unfold maxTimeValue; norm_num)
    ⟨60, 0, by norm_num, by norm_num, by norm_num, by norm_num⟩ (by norm_num)
    ⟨1, -1, by norm_num, by norm_num, by norm_num, by norm_num⟩ (by norm_num)
    (by norm_num)).2.1 (by unfold maxTimeValue; norm_num)

/-- C25: for every url the video id is the last element of `url.split('/')`, the text after
the last `/` of the url (the whole url when it has none), so it contains no `/`; the download
path is `videos/<videoId>.mp4`; for the url of `main.ts` the file name is
`Y-2w8GnIqLc.mp4`, the name `main.ts` passes on. -/
theorem C25_video_id_is_last_url_segment (url : String) :
    '/' ∉ (videoId url).toList ∧
    (∃ pre : String, url = pre ++ videoId url ∧
      (pre = "" ∨ pre.toList.getLast? = some '/')) ∧
    ('/' ∉ url.toList → videoId url = url) ∧
    downloadRelativePath url = "videos/" ++ videoId url ++ ".mp4" ∧
    videoId mainUrl = "Y-2w8GnIqLc" ∧
    downloadRelativePath mainUrl = "videos/Y-2w8GnIqLc.mp4" ∧
    downloadFileName mainUrl = mainFileName := by
  obtain ⟨seg, pre, hlast, hurl, hpre⟩ := jsSplit_last '/' url.toList
  have hid : videoId url = String.mk seg := by
    simp only [videoId, hlast]
  have hseg : '/' ∉ seg :=
    jsSplit_no_sep '/' url.toList seg (List.mem_of_getLast?_eq_some hlast)
  refine ⟨?_, ⟨String.mk pre, ?_, ?_⟩, ?_, rfl, by decide, by decide, by decide⟩
  · rw [hid]; exact hseg
  · rw [hid]
    apply String.ext
    simpa [String.toList] using hurl
  · rcases hpre with h | h
    · left; rw [h]
    · right; exact h
  · intro hno
    have hpre2 : pre = [] := by
      rcases hpre with h | h
      · exact h
      · exfalso
        apply hno
        rw [hurl]
        exact List.mem_append_left _ (List.mem_of_getLast?_eq_some h)
    rw [hid]
    apply String.ext
    simp only [String.toList] at hurl
    rw [hurl, hpre2]
    rfl

/-- C25 for a url without `/`: the video id is the whole url. -/
theorem C25_video_id_is_last_url_segment_witness : videoId "Y-2w8GnIqLc" = "Y-2w8GnIqLc" :=
  (C25_video_id_is_last_url_segment "Y-2w8GnIqLc").2.2.1 (by decide)

end MakeVideoUnique
